import Mathlib

/-!
# tiny-ml-pico: evaluation pipeline of `main.c`

A shallow embedding of the original logic of `src/main.c`:

* `normalize_input` (lines 30-33), the StandardScaler normalisation;
* `argmax` (lines 40-46), the decision rule on the three class scores;
* the evaluation loop of `main` (lines 94-132): zeroing of `conf_matrix`,
  the running counter `correct` and the per-sample update;
* the accuracy computation (line 146);
* the drawing of the confusion matrix on the SSD1306 display (lines 151-235),
  as the sequence of driver calls it issues;
* `wait_for_button_press` (lines 48-57) and the function `main` as a whole
  (lines 60-242), as the sequence of events of a run and the way the run ends.

Conventions.  C `int` values are Lean `Int`; an operation whose C behaviour is
undefined (an out-of-range array index, a signed increment past `INT_MAX`, a
`sprintf` that does not fit its buffer) yields `none`.  C `float` values are
an abstract type carrying the operations the code uses; the claims about
exact arithmetic instantiate it with `ℚ`.  The one floating-point result the
claims give a value to, the accuracy of line 146, is computed with the rounding
of binary32 (`toBinary32`).  The tables of the headers
`wine_dataset.h` and `wine_normalization.h` and the inference call
`tflm_infer` are not part of the translated file and are parameters.
-/

namespace TinyML

/-! ## Decision rule -/

/-- One iteration of the scan of `argmax` (line 44): the pair is `(idx, max)`,
and position `i` replaces it only when `v[i] > max`. -/
def argmaxStep {α : Type} [LT α] [∀ a b : α, Decidable (a < b)]
    (v : Fin 3 → α) (s : Int × α) (i : Fin 3) : Int × α :=
  if v i > s.2 then ((i.val : Int), v i) else s

/-- The function `argmax` (lines 40-46): start from `idx = 0`, `max = v[0]`,
scan `i = 1, 2`, return `idx`. -/
def argmax {α : Type} [LT α] [∀ a b : α, Decidable (a < b)]
    (v : Fin 3 → α) : Int :=
  (([1, 2] : List (Fin 3)).foldl (argmaxStep v) (0, v 0)).1

/-! ## Normalisation -/

/-- The memory `normalize_input` works on: its two array arguments (`inp` is
the parameter the source calls `in`) and the two global tables of
`wine_normalization.h`.  The four arrays are distinct objects, as at the only
call site (line 110). -/
structure NormMem (F : Type) where
  inp : Fin 13 → F
  out : Fin 13 → F
  wine_means : Fin 13 → F
  wine_stds : Fin 13 → F

/-- The loop body of `normalize_input` (line 32):
`out[i] = (in[i] - wine_means[i]) / wine_stds[i]`. -/
def normalizeBody {F : Type} [Sub F] [Div F] (m : NormMem F) (i : Fin 13) : NormMem F :=
  { m with out := Function.update m.out i ((m.inp i - m.wine_means i) / m.wine_stds i) }

/-- The function `normalize_input` (lines 30-33): the body runs for
`i = 0, ..., 12`. -/
def normalize_input {F : Type} [Sub F] [Div F] (m : NormMem F) : NormMem F :=
  (List.finRange 13).foldl normalizeBody m

/-! ## Confusion matrix and evaluation loop -/

/-- The macro `NUM_SAMPLES`, defined as 178 (line 10). -/
def NUM_SAMPLES : Nat := 178

/-- The macro `NUM_CLASSES`, defined as 3 (line 11). -/
def NUM_CLASSES : Nat := 3

/-- Largest value of a 32-bit C `int`. -/
def INT_MAX : Int := 2147483647

/-- The global `conf_matrix[NUM_CLASSES][NUM_CLASSES]` (line 22), real × predicted. -/
abbrev ConfMatrix : Type := Fin 3 → Fin 3 → Int

/-- The state the evaluation loop mutates: `conf_matrix` and the local `correct`. -/
structure EvalState where
  conf_matrix : ConfMatrix
  correct : Int

/-- The zeroing loops of lines 95-97, run on whatever the matrix held before. -/
def zero_matrix (m : ConfMatrix) : ConfMatrix :=
  (List.finRange 3).foldl
    (fun m1 i => (List.finRange 3).foldl
      (fun m2 j => Function.update m2 i (Function.update (m2 i) j 0)) m1) m

/-- State at line 99, just before the evaluation loop: zeroed matrix, `correct = 0`. -/
def initState (m : ConfMatrix) : EvalState :=
  { conf_matrix := zero_matrix m, correct := 0 }

/-- An `int` used as an index of an array of 3 elements: defined only inside `[0, 3)`. -/
def toIndex (n : Int) : Option (Fin 3) :=
  if h : 0 ≤ n ∧ n < 3 then some ⟨n.toNat, by omega⟩ else none

/-- The operator `++` on an `int`: defined only below `INT_MAX`. -/
def incr (x : Int) : Option Int :=
  if x < INT_MAX then some (x + 1) else none

/-- Lines 122 and 125: `if (pred == real) correct++; conf_matrix[real][pred]++;`. -/
def recordStep (st : EvalState) (real pred : Int) : Option EvalState :=
  (if pred = real then incr st.correct else some st.correct).bind fun correct =>
  (toIndex real).bind fun r =>
  (toIndex pred).bind fun c =>
  (incr (st.conf_matrix r c)).bind fun x =>
  some { conf_matrix := Function.update st.conf_matrix r (Function.update (st.conf_matrix r) c x),
         correct := correct }

/-- The evaluation loop seen from the accumulator: the successive `(real, pred)`
pairs of the samples are recorded one after the other. -/
def evalLoop (st : EvalState) : List (Int × Int) → Option EvalState
  | [] => some st
  | p :: ps => (recordStep st p.1 p.2).bind fun st1 => evalLoop st1 ps

/-- What the loop body reads from outside `main.c`: the dataset and
normalisation tables, the inference call (which may depend on the number of
the call as well as on its input), and the content of the uninitialised local
`features_norm` at each iteration. -/
structure Env (F : Type) where
  wine_features : Nat → Fin 13 → F
  wine_labels : Nat → Int
  wine_means : Fin 13 → F
  wine_stds : Fin 13 → F
  tflm_infer : Nat → (Fin 13 → F) → (Fin 3 → F)
  features_norm0 : Nat → Fin 13 → F

/-- Lines 106-119 for sample `i`: normalise, infer, take the `argmax`, read the
true label; the result is the pair `(real, pred)`. -/
def samplePair {F : Type} [Sub F] [Div F] [LT F] [∀ a b : F, Decidable (a < b)]
    (env : Env F) (i : Nat) : Int × Int :=
  let features_norm :=
    (normalize_input ⟨env.wine_features i, env.features_norm0 i,
      env.wine_means, env.wine_stds⟩).out
  let scores := env.tflm_infer i features_norm
  let pred := argmax scores
  let real := env.wine_labels i
  (real, pred)

/-- One iteration of the loop of lines 105-132 (the diagnostic `printf` of the
first 15 samples changes no state and is left out). -/
def loopBody {F : Type} [Sub F] [Div F] [LT F] [∀ a b : F, Decidable (a < b)]
    (env : Env F) (st : EvalState) (i : Nat) : Option EvalState :=
  recordStep st (samplePair env i).1 (samplePair env i).2

/-- The loop `for (i = 0; i < num_samples; i++)` from state `st`. -/
def runLoop {F : Type} [Sub F] [Div F] [LT F] [∀ a b : F, Decidable (a < b)]
    (env : Env F) (st : EvalState) : List Nat → Option EvalState
  | [] => some st
  | i :: is => (loopBody env st i).bind fun st1 => runLoop env st1 is

/-- Lines 94-132 of `main` for a dataset of `num_samples` samples: zero the
matrix, set `correct = 0`, run the loop.  `main` uses `NUM_SAMPLES`. -/
def evaluate {F : Type} [Sub F] [Div F] [LT F] [∀ a b : F, Decidable (a < b)]
    (env : Env F) (num_samples : Nat) (m : ConfMatrix) : Option EvalState :=
  runLoop env (initState m) (List.range num_samples)

/-- Rounding of a rational to the nearest integer, a tie going to the even one. -/
def roundHalfEven (q : ℚ) : Int :=
  if q - (⌊q⌋ : ℚ) < 1 / 2 then ⌊q⌋
  else if 1 / 2 < q - (⌊q⌋ : ℚ) then ⌊q⌋ + 1
  else if ⌊q⌋ % 2 = 0 then ⌊q⌋ else ⌊q⌋ + 1

/-- The value of type `float` (IEEE 754 binary32, rounding to nearest, ties to
even) that stands for the real number `q`: a significand of 24 bits times
`2 ^ e`, with `e` at least `-149` (below `2 ^ (-126)` the values are the
subnormal ones).  The result is `none` when the rounded value does not fit the
format, that is when the operation yields an infinity. -/
def toBinary32 (q : ℚ) : Option ℚ :=
  if q = 0 then some 0
  else
    let e : Int := max (Int.log 2 |q| - 23) (-149)
    let m : Int := roundHalfEven (|q| / (2 : ℚ) ^ e)
    if (m : ℚ) * (2 : ℚ) ^ e < (2 : ℚ) ^ (128 : Int) then
      some (if q < 0 then -((m : ℚ) * (2 : ℚ) ^ e) else (m : ℚ) * (2 : ℚ) ^ e)
    else none

/-- Line 146: `accuracy = (float)correct / NUM_SAMPLES`.  The cast converts
`correct` to `float`, the usual arithmetic conversions do the same to the
divisor, and the quotient is rounded to `float`.  The result is `none` when it
is not a finite number (a zero divisor, an overflow). -/
def accuracy (correct : Int) (num_samples : Nat) : Option ℚ :=
  (toBinary32 (correct : ℚ)).bind fun a =>
  (toBinary32 (num_samples : ℚ)).bind fun b =>
  if b = 0 then none else toBinary32 (a / b)

/-- Sum of the nine counters. -/
def matrixSum (m : ConfMatrix) : Int :=
  ∑ r : Fin 3, ∑ c : Fin 3, m r c

/-- Sum of the three diagonal counters. -/
def diagSum (m : ConfMatrix) : Int :=
  m 0 0 + m 1 1 + m 2 2

/-- Both labels of a pair are in `[0, 3)`. -/
def validPair (p : Int × Int) : Prop :=
  (0 ≤ p.1 ∧ p.1 < 3) ∧ (0 ≤ p.2 ∧ p.2 < 3)

instance (p : Int × Int) : Decidable (validPair p) := by
  unfold validPair; infer_instance

/-! ## Rendering -/

/-- The calls `main` makes to the SSD1306 driver when it draws the matrix. -/
inductive DrawCmd where
  | fill (color : Bool)
  | draw_string (s : String) (x y : Int)
  | line (x0 y0 x1 y1 : Int) (color : Bool)
  | send_data
  deriving DecidableEq, Repr

/-- Is the call an `ssd1306_line`? -/
def DrawCmd.isLine : DrawCmd → Bool
  | .line _ _ _ _ _ => true
  | _ => false

/-- Is the call an `ssd1306_draw_string`? -/
def DrawCmd.isText : DrawCmd → Bool
  | .draw_string _ _ _ => true
  | _ => false

/-- The four locals of lines 154-157. -/
structure Layout where
  cell_w : Int
  cell_h : Int
  start_x : Int
  start_y : Int
  deriving DecidableEq, Repr

/-- The values `main` gives them: `cell_w = 35`, `cell_h = 18`, `start_x = 0`,
`start_y = 10`. -/
def layout0 : Layout :=
  { cell_w := 35, cell_h := 18, start_x := 0, start_y := 10 }

/-- The eight `ssd1306_line` calls of lines 161-218, in source order.  The
multipliers 0, 1, 2, 3 and the inset `- 3` are written out in the source;
`num_classes` stands for the macro `NUM_CLASSES` where the source uses it. -/
def grid_lines (num_classes : Int) (L : Layout) : List DrawCmd :=
  let y_end := L.start_y + L.cell_h * num_classes - 3
  [ .line L.start_x (L.start_y + 0 * L.cell_h)
      (L.start_x + L.cell_w * num_classes) (L.start_y + 0 * L.cell_h) true,
    .line L.start_x (L.start_y + 1 * L.cell_h)
      (L.start_x + L.cell_w * num_classes) (L.start_y + 1 * L.cell_h) true,
    .line L.start_x (L.start_y + 2 * L.cell_h)
      (L.start_x + L.cell_w * num_classes) (L.start_y + 2 * L.cell_h) true,
    .line L.start_x (L.start_y + 3 * L.cell_h - 3)
      (L.start_x + L.cell_w * num_classes) (L.start_y + 3 * L.cell_h - 3) true,
    .line (L.start_x + 0 * L.cell_w) L.start_y (L.start_x + 0 * L.cell_w) y_end true,
    .line (L.start_x + 1 * L.cell_w) L.start_y (L.start_x + 1 * L.cell_w) y_end true,
    .line (L.start_x + 2 * L.cell_w) L.start_y (L.start_x + 2 * L.cell_w) y_end true,
    .line (L.start_x + 3 * L.cell_w) L.start_y (L.start_x + 3 * L.cell_w) y_end true ]

/-- The call `sprintf(buf, "%d", n)` into a buffer of `size` bytes: the decimal
string of `n`, defined only when it fits together with its terminator. -/
def sprintf_d (size : Nat) (n : Int) : Option String :=
  if (toString n).length + 1 ≤ size then some (toString n) else none

/-- Body of the inner loop, lines 225-231: format the counter into `buf[6]` and
draw it at `(text_x, text_y)`.  `tr` is the list of driver calls made so far. -/
def draw_cell (L : Layout) (m : ConfMatrix) (r c : Fin 3) (tr : List DrawCmd) :
    Option (List DrawCmd) :=
  (sprintf_d 6 (m r c)).bind fun buf =>
  let text_x := L.start_x + (c.val : Int) * L.cell_w + 8
  let text_y := L.start_y + (r.val : Int) * L.cell_h + 6
  some (tr ++ [.draw_string buf text_x text_y])

/-- A loop over the indices `is` whose body may be undefined. -/
def forM3 {σ : Type} (body : Fin 3 → σ → Option σ) : List (Fin 3) → σ → Option σ
  | [], s => some s
  | i :: is, s => (body i s).bind (forM3 body is)

/-- The nested loops of lines 222-233: `r` outer, `c` inner. -/
def draw_cells (L : Layout) (m : ConfMatrix) (tr : List DrawCmd) : Option (List DrawCmd) :=
  forM3 (fun r => forM3 (fun c => draw_cell L m r c) (List.finRange 3)) (List.finRange 3) tr

/-- Lines 151-235: clear the canvas, draw the header, the grid, the nine
counters, then transfer the canvas to the device. -/
def render (L : Layout) (m : ConfMatrix) : Option (List DrawCmd) :=
  (draw_cells L m
    ([.fill false, .draw_string "Matriz Confusao" 5 0] ++ grid_lines (NUM_CLASSES : Int) L)).bind
    fun tr => some (tr ++ [.send_data])

/-- Every counter has a decimal string of at most five characters. -/
def fitsBuffer (m : ConfMatrix) : Prop :=
  ∀ r c : Fin 3, -9999 ≤ m r c ∧ m r c ≤ 99999

/-- The nine text calls of the cell loops written out, row by row, for a
matrix whose counters fit the buffer. -/
def cell_calls (L : Layout) (m : ConfMatrix) : List DrawCmd :=
  [ .draw_string (toString (m 0 0)) (L.start_x + 0 * L.cell_w + 8) (L.start_y + 0 * L.cell_h + 6),
    .draw_string (toString (m 0 1)) (L.start_x + 1 * L.cell_w + 8) (L.start_y + 0 * L.cell_h + 6),
    .draw_string (toString (m 0 2)) (L.start_x + 2 * L.cell_w + 8) (L.start_y + 0 * L.cell_h + 6),
    .draw_string (toString (m 1 0)) (L.start_x + 0 * L.cell_w + 8) (L.start_y + 1 * L.cell_h + 6),
    .draw_string (toString (m 1 1)) (L.start_x + 1 * L.cell_w + 8) (L.start_y + 1 * L.cell_h + 6),
    .draw_string (toString (m 1 2)) (L.start_x + 2 * L.cell_w + 8) (L.start_y + 1 * L.cell_h + 6),
    .draw_string (toString (m 2 0)) (L.start_x + 0 * L.cell_w + 8) (L.start_y + 2 * L.cell_h + 6),
    .draw_string (toString (m 2 1)) (L.start_x + 1 * L.cell_w + 8) (L.start_y + 2 * L.cell_h + 6),
    .draw_string (toString (m 2 2)) (L.start_x + 2 * L.cell_w + 8) (L.start_y + 2 * L.cell_h + 6) ]

instance (m : ConfMatrix) : Decidable (fitsBuffer m) := by
  unfold fitsBuffer; infer_instance

/-- The grid as section 4.5 of the specification words it, for a class count
`N`: `N + 1` horizontal lines at `y = y0 + r * h` for `r` in `[0, N]`, from `x0`
to `x0 + N * w`, the last one at `y0 + N * h - 3` instead; then `N + 1` vertical
lines at `x = x0 + c * w` for `c` in `[0, N]`, from `y0` to `y0 + N * h - 3`.
This is the specification side of the comparison with `grid_lines`. -/
def spec_grid_lines (N : Nat) (L : Layout) : List DrawCmd :=
  (List.range (N + 1)).map (fun (r : Nat) =>
    let y := if r = N then L.start_y + (N : Int) * L.cell_h - 3
             else L.start_y + (r : Int) * L.cell_h
    DrawCmd.line L.start_x y (L.start_x + (N : Int) * L.cell_w) y true) ++
  (List.range (N + 1)).map (fun (c : Nat) =>
    DrawCmd.line (L.start_x + (c : Int) * L.cell_w) L.start_y
      (L.start_x + (c : Int) * L.cell_w) (L.start_y + (N : Int) * L.cell_h - 3) true)

/-- Width of the canvas, the second argument of `ssd1306_init` (line 75). -/
def CANVAS_WIDTH : Int := 128

/-- Height of the canvas, the third argument of `ssd1306_init` (line 75). -/
def CANVAS_HEIGHT : Int := 64

/-- The points a driver call names: both endpoints of a line, the anchor of a
text, nothing for `fill` and `send_data`. -/
def DrawCmd.points : DrawCmd → List (Int × Int)
  | .line x0 y0 x1 y1 _ => [(x0, y0), (x1, y1)]
  | .draw_string _ x y => [(x, y)]
  | _ => []

/-- Is the point on the canvas? -/
def onCanvas (p : Int × Int) : Prop :=
  (0 ≤ p.1 ∧ p.1 < CANVAS_WIDTH) ∧ (0 ≤ p.2 ∧ p.2 < CANVAS_HEIGHT)

instance (p : Int × Int) : Decidable (onCanvas p) := by
  unfold onCanvas; infer_instance

/-! ## The program `main` -/

/-- What `main` does that can be observed from outside, in order: calls of the
platform bring-up, `printf` (format and integer arguments; floating arguments
are not recorded), the call `tflm_init_model` with the status it returned, the
call `tflm_infer` with the number of the sample, a call to the display driver,
`sleep_ms`. -/
inductive Event where
  | platform (call : String) (args : List Int)
  | printf (fmt : String) (args : List Int)
  | tflm_init_model (status : Int)
  | tflm_infer (sample : Nat)
  | display (cmd : DrawCmd)
  | sleep_ms (ms : Int)
  deriving DecidableEq, Repr

/-- How a run of `main` ends: it returns a code, or it never leaves the polling
loop of `wait_for_button_press`, or it reaches the final `while(1)` of line 241. -/
inductive Outcome where
  | returned (code : Int)
  | waiting
  | idle
  deriving DecidableEq, Repr

/-- A run of `main`: the events up to the point where it returns or starts to
loop for ever, the content of the global `conf_matrix` there, and the outcome. -/
structure MainRun where
  trace : List Event
  conf_matrix : ConfMatrix
  outcome : Outcome

/-- Lines 63-78: bring-up of stdio, the button pin (5), the I2C bus (pins 14 and
15) and the display (address `0x3C`), then the banner.  Only the integer
arguments written in `main.c` are recorded. -/
def bringUp : List Event :=
  [ .platform "stdio_init_all" [],
    .platform "gpio_init" [5],
    .platform "gpio_set_dir" [5, 0],
    .platform "gpio_pull_up" [5],
    .platform "i2c_init" [400 * 1000],
    .platform "gpio_set_function" [14],
    .platform "gpio_set_function" [15],
    .platform "gpio_pull_up" [14],
    .platform "gpio_pull_up" [15],
    .platform "ssd1306_init" [CANVAS_WIDTH, CANVAS_HEIGHT, 0, 60],
    .platform "ssd1306_config" [],
    .printf "\n=== TinyML Wine - Matriz de Confusao ===\n" [] ]

/-- The function `wait_for_button_press` (lines 48-57) when the pin reads 1
(not pressed) at the first `polls` tests and something else at the next: the
body of the loop runs `polls` times, then `sleep_ms(200)`. -/
def wait_for_button_press : Nat → List Event
  | 0 => [.sleep_ms 200]
  | polls + 1 =>
    [ .display (.draw_string "Pressione A" 30 15),
      .display (.draw_string "para Inferir" 28 35),
      .display .send_data ] ++ wait_for_button_press polls

/-- The events of iteration `i` of the evaluation loop: the inference call, and
for the first 15 samples the diagnostic line of lines 128-131. -/
def sampleEvents {F : Type} [Sub F] [Div F] [LT F] [∀ a b : F, Decidable (a < b)]
    (env : Env F) (i : Nat) : List Event :=
  [.tflm_infer i] ++
    (if i < 15 then
      [.printf "Amostra %3d  Real: %d  Pred: %d  [%.3f %.3f %.3f]\n"
        [(i : Int), (samplePair env i).1, (samplePair env i).2]]
    else [])

/-- Lines 135-148: the table of the matrix and the accuracy line. -/
def summaryEvents (st : EvalState) : List Event :=
  [ .printf "\nMatriz de Confusao (real vs predito)\n" [],
    .printf "            Pred0         Pred1       Pred2\n" [] ] ++
  (List.finRange 3).flatMap (fun r =>
    [.printf "Real %d" [(r.val : Int)]] ++
    (List.finRange 3).map (fun c => .printf "   %8d" [st.conf_matrix r c]) ++
    [.printf "\n" []]) ++
  [ .printf "\nAcuracia final: %.4f  ( %d / %d )\n" [st.correct, (NUM_SAMPLES : Int)] ]

/-- The function `main` (lines 60-242).  `status` is what `tflm_init_model`
returns; `button` is the number of tests of the pin that read "not pressed"
before the first that reads "pressed", or `none` when the button is never
pressed; `m0` is the content of `conf_matrix` at entry.  The result is `none`
when the evaluation or the drawing is undefined. -/
def main {F : Type} [Sub F] [Div F] [LT F] [∀ a b : F, Decidable (a < b)]
    (env : Env F) (status : Int) (button : Option Nat) (m0 : ConfMatrix) : Option MainRun :=
  let start := bringUp ++ [.tflm_init_model status]
  if status ≠ 0 then
    some { trace := start ++ [.printf "Falha ao inicializar modelo.\n" []],
           conf_matrix := m0, outcome := .returned 1 }
  else
    match button with
    | none => some { trace := start, conf_matrix := m0, outcome := .waiting }
    | some polls =>
      (evaluate env NUM_SAMPLES m0).bind fun st =>
      (render layout0 st.conf_matrix).bind fun drawn =>
      some { trace := start ++ wait_for_button_press polls ++
               [ .printf "Modelo inicializado com sucesso!\n" [],
                 .printf "Iniciando inferencia nas 178 amostras do dataset Wine...\n" [] ] ++
               (List.range NUM_SAMPLES).flatMap (sampleEvents env) ++
               summaryEvents st ++ drawn.map Event.display ++
               [ .printf "\nFim da inferencia. Loop infinito.\n" [] ],
             conf_matrix := st.conf_matrix, outcome := .idle }

/-- The sample number of an inference call, nothing for the other events. -/
def Event.inferSample : Event → Option Nat
  | .tflm_infer i => some i
  | _ => none

/-- The driver call of a display event, nothing for the other events. -/
def Event.drawn : Event → Option DrawCmd
  | .display c => some c
  | _ => none

/-! ## A concrete environment -/

/-- A small environment used to instantiate the statements below: labels
`0, 1, 2, 0, 1, 2, ...`, and an engine that scores class 0 highest on the
samples of class 0 and class 1 highest on all the others. -/
def exampleEnv : Env ℚ :=
  { wine_features := fun i _ => (i : ℚ)
    wine_labels := fun i => ((i % 3 : Nat) : Int)
    wine_means := fun _ => 1
    wine_stds := fun _ => 2
    tflm_infer := fun i _ => if i % 3 = 0 then ![1, 0, 0] else ![0, 1, 0]
    features_norm0 := fun _ _ => 0 }

/-- A confusion matrix of 178 samples, used to instantiate the statements on
the renderer. -/
def exampleMatrix : ConfMatrix :=
  fun r c => ![![59, 0, 0], ![2, 67, 2], ![0, 1, 47]] r c

/-! ## Theorems -/

/-- The index returned by `argmax` is 0, 1 or 2, for any comparison at all
(no order axioms are needed, so this also covers scores that do not compare,
such as NaN). -/
theorem argmax_cases {α : Type} [LT α] [∀ a b : α, Decidable (a < b)]
    (v : Fin 3 → α) : argmax v = 0 ∨ argmax v = 1 ∨ argmax v = 2 := by
  unfold argmax
  simp only [List.foldl, argmaxStep]
  split_ifs <;> simp

/-- C1: for every score vector `v` of length 3 over a totally ordered set,
`argmax v` is an index `idx` with `0 ≤ idx < 3`, and the entry at that index
is at least every entry of `v`. -/
theorem argmax_is_max {α : Type} [LinearOrder α] (v : Fin 3 → α) :
    0 ≤ argmax v ∧ argmax v < 3 ∧
      ∃ k : Fin 3, (k.val : Int) = argmax v ∧ ∀ j : Fin 3, v j ≤ v k := by
  unfold argmax
  simp only [List.foldl, argmaxStep]
  split_ifs with h1 h2 h2
  · refine ⟨by simp, by simp, 2, by simp, ?_⟩
    intro j
    simp only [gt_iff_lt] at h1 h2
    fin_cases j
    · exact le_of_lt (lt_trans h1 h2)
    · exact le_of_lt h2
    · exact le_refl _
  · refine ⟨by simp, by simp, 1, by simp, ?_⟩
    intro j
    simp only [gt_iff_lt, not_lt] at h1 h2
    fin_cases j
    · exact le_of_lt h1
    · exact le_refl _
    · exact h2
  · refine ⟨by simp, by simp, 2, by simp, ?_⟩
    intro j
    simp only [gt_iff_lt, not_lt] at h1 h2
    fin_cases j
    · exact le_of_lt h2
    · exact le_trans h1 (le_of_lt h2)
    · exact le_refl _
  · refine ⟨by simp, by simp, 0, by simp, ?_⟩
    intro j
    simp only [gt_iff_lt, not_lt] at h1 h2
    fin_cases j
    · exact le_refl _
    · exact h1
    · exact h2

/-- C2: `argmax` returns the first index attaining the maximum: every index
strictly before the returned one holds a strictly smaller score; and on the
tie `[0.5, 0.2, 0.5]` the returned index is 0. -/
theorem argmax_first_max :
    (∀ (α : Type) [LinearOrder α] (v : Fin 3 → α) (j k : Fin 3),
        (k.val : Int) = argmax v → j < k → v j < v k) ∧
      argmax (![1/2, 1/5, 1/2] : Fin 3 → ℚ) = 0 := by
  constructor
  · intro α _ v j k hk hjk
    unfold argmax at hk
    simp only [List.foldl, argmaxStep] at hk
    split_ifs at hk with h1 h2 h2
    all_goals simp only [gt_iff_lt, not_lt] at h1 h2
    all_goals fin_cases k <;> simp at hk
    all_goals fin_cases j <;> simp at hjk ⊢
    · exact lt_trans h1 h2
    · exact h2
    · exact h1
    · exact h2
    · exact lt_of_le_of_lt h1 h2
  · simp [argmax, argmaxStep]
    norm_num

/-! ### Normalisation -/

/-- Running the body of `normalize_input` over a list of positions writes the
listed positions of `out` and nothing else. -/
theorem normalize_foldl {F : Type} [Sub F] [Div F] (l : List (Fin 13)) (m : NormMem F) :
    (l.foldl normalizeBody m).inp = m.inp ∧
    (l.foldl normalizeBody m).wine_means = m.wine_means ∧
    (l.foldl normalizeBody m).wine_stds = m.wine_stds ∧
    ∀ i, (l.foldl normalizeBody m).out i =
      if i ∈ l then (m.inp i - m.wine_means i) / m.wine_stds i else m.out i := by
  induction l generalizing m with
  | nil => simp
  | cons a l ih =>
    obtain ⟨h1, h2, h3, h4⟩ := ih (normalizeBody m a)
    simp only [List.foldl_cons]
    refine ⟨by rw [h1]; rfl, by rw [h2]; rfl, by rw [h3]; rfl, ?_⟩
    intro i
    rw [h4 i]
    by_cases hl : i ∈ l
    · simp [hl, normalizeBody]
    · by_cases hia : i = a
      · subst hia
        simp [hl, normalizeBody]
      · simp [hl, hia, normalizeBody]

/-- C3: with non-zero standard deviations, `normalize_input` leaves in `out`
the vector `y` with `y[i] = (x[i] - mean[i]) / std[i]` at each of the 13
positions (so that `y[i] * std[i] + mean[i] = x[i]`), whatever `out` held
before, and `in`, `wine_means` and `wine_stds` are unchanged. -/
theorem normalize_input_spec (x y0 mean std : Fin 13 → ℚ) (hstd : ∀ i, std i ≠ 0) :
    (∀ i : Fin 13,
      (normalize_input ⟨x, y0, mean, std⟩).out i = (x i - mean i) / std i ∧
      (normalize_input ⟨x, y0, mean, std⟩).out i * std i + mean i = x i) ∧
    (normalize_input ⟨x, y0, mean, std⟩).inp = x ∧
    (normalize_input ⟨x, y0, mean, std⟩).wine_means = mean ∧
    (normalize_input ⟨x, y0, mean, std⟩).wine_stds = std := by
  obtain ⟨h1, h2, h3, h4⟩ := normalize_foldl (List.finRange 13) (⟨x, y0, mean, std⟩ : NormMem ℚ)
  refine ⟨?_, h1, h2, h3⟩
  intro i
  have hi : (normalize_input ⟨x, y0, mean, std⟩).out i = (x i - mean i) / std i := by
    unfold normalize_input
    rw [h4 i]
    simp [List.mem_finRange]
  refine ⟨hi, ?_⟩
  rw [hi, div_mul_cancel₀ _ (hstd i)]
  ring

/-- Witness for C3: means 1, deviations 2, input `x[i] = i`. -/
theorem normalize_input_spec_witness :
    (∀ i : Fin 13,
      (normalize_input ⟨fun i => (i.val : ℚ), fun _ => 0, fun _ => 1, fun _ => 2⟩).out i
        = ((i.val : ℚ) - 1) / 2 ∧
      (normalize_input ⟨fun i => (i.val : ℚ), fun _ => 0, fun _ => 1, fun _ => 2⟩).out i * 2 + 1
        = (i.val : ℚ)) ∧
    (normalize_input ⟨fun i => (i.val : ℚ), fun _ => 0, fun _ => 1, fun _ => 2⟩).inp
      = (fun i => (i.val : ℚ)) ∧
    (normalize_input ⟨fun i => (i.val : ℚ), fun _ => 0, fun _ => 1, fun _ => 2⟩).wine_means
      = (fun _ => 1) ∧
    (normalize_input ⟨fun i => (i.val : ℚ), fun _ => 0, fun _ => 1, fun _ => 2⟩).wine_stds
      = (fun _ => 2) :=
  normalize_input_spec (fun i => (i.val : ℚ)) (fun _ => 0) (fun _ => 1) (fun _ => 2)
    (fun _ => two_ne_zero)

/-! ### Accumulator -/

theorem finRange_three : List.finRange 3 = [0, 1, 2] := by decide

/-- The zeroing loops leave every counter at 0, whatever was there before. -/
theorem zero_matrix_eq (m : ConfMatrix) : zero_matrix m = fun _ _ => 0 := by
  funext r c
  simp only [zero_matrix, finRange_three, List.foldl]
  fin_cases r <;> fin_cases c <;> simp [Function.update]

theorem toIndex_coe (r : Fin 3) : toIndex (r.val : Int) = some r := by
  have h : 0 ≤ (r.val : Int) ∧ (r.val : Int) < 3 := ⟨by omega, by omega⟩
  simp [toIndex, h]

theorem exists_index (n : Int) (h0 : 0 ≤ n) (h3 : n < 3) : ∃ r : Fin 3, (r.val : Int) = n :=
  ⟨⟨n.toNat, by omega⟩, by simp only [Int.toNat_of_nonneg h0]⟩

theorem coe_index_inj (r c : Fin 3) : (c.val : Int) = (r.val : Int) ↔ c = r := by
  constructor
  · intro h
    exact Fin.ext (by exact_mod_cast h)
  · intro h
    rw [h]

/-- The record step on in-range labels whose counters can still be incremented. -/
theorem recordStep_eq (st : EvalState) (r c : Fin 3)
    (hm : st.conf_matrix r c < INT_MAX) (hc : st.correct < INT_MAX) :
    recordStep st (r.val : Int) (c.val : Int) =
      some { conf_matrix := Function.update st.conf_matrix r
               (Function.update (st.conf_matrix r) c (st.conf_matrix r c + 1)),
             correct := if c = r then st.correct + 1 else st.correct } := by
  unfold recordStep
  by_cases h : c = r
  · subst h
    simp [toIndex_coe, incr, hm, hc]
  · have h2 : ¬ ((c.val : Int) = (r.val : Int)) := fun e => h ((coe_index_inj r c).1 e)
    simp [toIndex_coe, incr, hm, h, h2]

theorem matrixSum_update (m : ConfMatrix) (r c : Fin 3) :
    matrixSum (Function.update m r (Function.update (m r) c (m r c + 1))) = matrixSum m + 1 := by
  simp only [matrixSum, Fin.sum_univ_three, Function.update_apply]
  fin_cases r <;> fin_cases c <;> simp <;> ring

theorem diagSum_update (m : ConfMatrix) (r c : Fin 3) :
    diagSum (Function.update m r (Function.update (m r) c (m r c + 1))) =
      diagSum m + (if c = r then 1 else 0) := by
  simp only [diagSum, Function.update_apply]
  fin_cases r <;> fin_cases c <;> simp <;> ring

/-- Loop invariant of the evaluation loop, from any state with enough head-room:
the loop is defined on in-range labels, each counter grows by the number of
occurrences of its pair, `correct` by the number of pairs on the diagonal, the
sum of the counters by the number of pairs, and `correct` and the diagonal sum
grow together. -/
theorem evalLoop_spec (ps : List (Int × Int)) :
    ∀ st : EvalState, (∀ p ∈ ps, validPair p) →
      (∀ r c : Fin 3, st.conf_matrix r c + (ps.length : Int) ≤ INT_MAX) →
      st.correct + (ps.length : Int) ≤ INT_MAX →
      ∃ st1 : EvalState, evalLoop st ps = some st1 ∧
        (∀ r c : Fin 3, st1.conf_matrix r c = st.conf_matrix r c +
          ((ps.countP fun p => decide (p.1 = (r.val : Int) ∧ p.2 = (c.val : Int)) : Nat) : Int)) ∧
        st1.correct = st.correct + ((ps.countP fun p => decide (p.2 = p.1) : Nat) : Int) ∧
        matrixSum st1.conf_matrix = matrixSum st.conf_matrix + (ps.length : Int) ∧
        st1.correct - diagSum st1.conf_matrix = st.correct - diagSum st.conf_matrix := by
  induction ps with
  | nil =>
    intro st _ _ _
    exact ⟨st, rfl, by simp, by simp, by simp, rfl⟩
  | cons p ps ih =>
    intro st hv hb hc
    obtain ⟨⟨hr0, hr3⟩, ⟨hc0, hc3⟩⟩ := hv p (List.mem_cons_self _ _)
    obtain ⟨r0, hr⟩ := exists_index p.1 hr0 hr3
    obtain ⟨c0, hcc⟩ := exists_index p.2 hc0 hc3
    have hlen : ((p :: ps).length : Int) = (ps.length : Int) + 1 := by simp
    have hb0 := hb r0 c0
    rw [hlen] at hb0 hc
    have hstep := recordStep_eq st r0 c0 (by omega) (by omega)
    rw [hr, hcc] at hstep
    obtain ⟨st1, h1, h2, h3, h4, h5⟩ := ih
      { conf_matrix := Function.update st.conf_matrix r0
          (Function.update (st.conf_matrix r0) c0 (st.conf_matrix r0 c0 + 1)),
        correct := if c0 = r0 then st.correct + 1 else st.correct }
      (fun q hq => hv q (List.mem_cons_of_mem _ hq))
      (by
        intro r c
        have := hb r c
        rw [hlen] at this
        by_cases e1 : r = r0
        · subst e1
          by_cases e2 : c = c0
          · subst e2; simp only [Function.update_same]; omega
          · simp only [Function.update_same, Function.update_noteq e2]; omega
        · simp only [Function.update_noteq e1]; omega)
      (by
        show (if c0 = r0 then st.correct + 1 else st.correct) + (ps.length : Int) ≤ INT_MAX
        split_ifs <;> omega)
    refine ⟨st1, ?_, ?_, ?_, ?_, ?_⟩
    · simp only [evalLoop, hstep, Option.some_bind]
      exact h1
    · intro r c
      rw [h2 r c, List.countP_cons]
      simp only [Function.update_apply, ← hr, ← hcc]
      by_cases e1 : r = r0
      · by_cases e2 : c = c0
        · subst e1; subst e2; simp; ring
        · subst e1
          have : ¬ ((c0.val : Int) = (c.val : Int)) := fun e => e2 ((coe_index_inj c0 c).1 e.symm)
          simp [e2, this]
      · have : ¬ ((r0.val : Int) = (r.val : Int)) := fun e => e1 ((coe_index_inj r0 r).1 e.symm)
        simp [e1, this]
    · rw [h3, List.countP_cons]
      simp only [← hr, ← hcc]
      by_cases e : c0 = r0
      · subst e; simp; ring
      · have : ¬ ((c0.val : Int) = (r0.val : Int)) := fun e2 => e ((coe_index_inj r0 c0).1 e2)
        simp [e, this]
    · rw [h4, matrixSum_update, hlen]
      ring
    · rw [h5]
      show (if c0 = r0 then st.correct + 1 else st.correct) -
        diagSum (Function.update st.conf_matrix r0
          (Function.update (st.conf_matrix r0) c0 (st.conf_matrix r0 c0 + 1))) = _
      rw [diagSum_update]
      split_ifs <;> ring

/-- The loop of `main` records the pairs `(real, pred)` of its samples in order. -/
theorem runLoop_eq_evalLoop {F : Type} [Sub F] [Div F] [LT F] [∀ a b : F, Decidable (a < b)]
    (env : Env F) (is : List Nat) :
    ∀ st : EvalState, runLoop env st is = evalLoop st (is.map (samplePair env)) := by
  induction is with
  | nil => intro st; rfl
  | cons i is ih =>
    intro st
    simp only [runLoop, List.map_cons, evalLoop, loopBody]
    congr 1
    funext st1
    exact ih st1

/-- With an in-range label, the pair of a sample is in range: the predicted
label comes from `argmax`. -/
theorem samplePair_valid {F : Type} [Sub F] [Div F] [LT F] [∀ a b : F, Decidable (a < b)]
    (env : Env F) (i : Nat) (h : 0 ≤ env.wine_labels i ∧ env.wine_labels i < 3) :
    validPair (samplePair env i) := by
  refine ⟨h, ?_⟩
  show 0 ≤ argmax _ ∧ argmax _ < 3
  rcases argmax_cases (env.tflm_infer i
    (normalize_input ⟨env.wine_features i, env.features_norm0 i,
      env.wine_means, env.wine_stds⟩).out) with e | e | e <;> rw [e] <;> decide

/-- The evaluation of the first `k` samples, from the zeroed state, in terms of
the invariant of `evalLoop_spec`. -/
theorem evaluate_spec {F : Type} [Sub F] [Div F] [LT F] [∀ a b : F, Decidable (a < b)]
    (env : Env F) (k : Nat) (m0 : ConfMatrix) (hk : (k : Int) ≤ INT_MAX)
    (hl : ∀ i, i < k → 0 ≤ env.wine_labels i ∧ env.wine_labels i < 3) :
    ∃ st : EvalState, evaluate env k m0 = some st ∧
      evalLoop (initState m0) ((List.range k).map (samplePair env)) = some st ∧
      matrixSum st.conf_matrix = (k : Int) ∧ st.correct = diagSum st.conf_matrix := by
  have hv : ∀ p ∈ (List.range k).map (samplePair env), validPair p := by
    intro p hp
    obtain ⟨i, hi, rfl⟩ := List.mem_map.1 hp
    exact samplePair_valid env i (hl i (List.mem_range.1 hi))
  obtain ⟨st, h1, _, _, h4, h5⟩ := evalLoop_spec _ (initState m0) hv
    (by intro r c; simp [initState, zero_matrix_eq]; exact hk)
    (by simp [initState]; exact hk)
  refine ⟨st, ?_, h1, ?_, ?_⟩
  · rw [evaluate, runLoop_eq_evalLoop]; exact h1
  · rw [h4]; simp [initState, zero_matrix_eq, matrixSum]
  · have : diagSum (initState m0).conf_matrix = 0 := by simp [initState, zero_matrix_eq, diagSum]
    rw [this] at h5
    simp only [initState] at h5
    omega

/-- C4: from the zeroed matrix, once the evaluation loop has recorded a
sequence of `k` in-range pairs the nine counters sum to `k`; in particular the
loop of `main` over the first `k ≤ NUM_SAMPLES` samples leaves the sum `k`,
and at loop exit the sum is 178. -/
theorem confusion_sum_eq_count {F : Type} [Sub F] [Div F] [LT F] [∀ a b : F, Decidable (a < b)]
    (env : Env F) (m0 : ConfMatrix) (ps : List (Int × Int))
    (hv : ∀ p ∈ ps, validPair p) (hlen : (ps.length : Int) ≤ INT_MAX)
    (hl : ∀ i, i < NUM_SAMPLES → 0 ≤ env.wine_labels i ∧ env.wine_labels i < 3) :
    (∀ r c : Fin 3, (initState m0).conf_matrix r c = 0) ∧
    (∃ st : EvalState, evalLoop (initState m0) ps = some st ∧
      matrixSum st.conf_matrix = (ps.length : Int)) ∧
    (∀ k : Nat, k ≤ NUM_SAMPLES → ∃ st : EvalState, evaluate env k m0 = some st ∧
      matrixSum st.conf_matrix = (k : Int)) ∧
    (∃ st : EvalState, evaluate env NUM_SAMPLES m0 = some st ∧
      matrixSum st.conf_matrix = 178) := by
  have hk : ∀ k : Nat, k ≤ NUM_SAMPLES → ∃ st : EvalState, evaluate env k m0 = some st ∧
      matrixSum st.conf_matrix = (k : Int) := by
    intro k hk
    have h178 : k ≤ 178 := hk
    obtain ⟨st, h1, _, h3, _⟩ := evaluate_spec env k m0
      (by unfold INT_MAX; omega) (fun i hi => hl i (lt_of_lt_of_le hi hk))
    exact ⟨st, h1, h3⟩
  refine ⟨fun r c => by simp [initState, zero_matrix_eq], ?_, hk, ?_⟩
  · obtain ⟨st, h1, _, _, h4, _⟩ := evalLoop_spec ps (initState m0) hv
      (by intro r c; simp [initState, zero_matrix_eq]; exact hlen)
      (by simp [initState]; exact hlen)
    refine ⟨st, h1, ?_⟩
    rw [h4]
    simp [initState, zero_matrix_eq, matrixSum]
  · obtain ⟨st, h1, h2⟩ := hk NUM_SAMPLES (le_refl _)
    exact ⟨st, h1, by rw [h2]; rfl⟩

/-- Witness for C4: three recorded pairs, and the loop of `main` on `exampleEnv`. -/
theorem confusion_sum_eq_count_witness :
    (∀ r c : Fin 3, (initState (fun _ _ => 5)).conf_matrix r c = 0) ∧
    (∃ st : EvalState, evalLoop (initState (fun _ _ => 5)) [(0, 0), (1, 2), (2, 1)] = some st ∧
      matrixSum st.conf_matrix = (([(0, 0), (1, 2), (2, 1)] : List (Int × Int)).length : Int)) ∧
    (∀ k : Nat, k ≤ NUM_SAMPLES → ∃ st : EvalState,
      evaluate exampleEnv k (fun _ _ => 5) = some st ∧ matrixSum st.conf_matrix = (k : Int)) ∧
    (∃ st : EvalState, evaluate exampleEnv NUM_SAMPLES (fun _ _ => 5) = some st ∧
      matrixSum st.conf_matrix = 178) :=
  confusion_sum_eq_count exampleEnv (fun _ _ => 5) [(0, 0), (1, 2), (2, 1)]
    (by decide) (by decide) (fun i _ => by simp only [exampleEnv]; omega)

/-- C5: from the zeroed matrix and `correct = 0`, after the evaluation loop has
recorded any sequence of in-range pairs (and after the loop of `main` over the
first `k ≤ NUM_SAMPLES` samples), `correct` equals
`conf_matrix[0][0] + conf_matrix[1][1] + conf_matrix[2][2]`. -/
theorem correct_eq_diagonal {F : Type} [Sub F] [Div F] [LT F] [∀ a b : F, Decidable (a < b)]
    (env : Env F) (m0 : ConfMatrix) (ps : List (Int × Int))
    (hv : ∀ p ∈ ps, validPair p) (hlen : (ps.length : Int) ≤ INT_MAX)
    (hl : ∀ i, i < NUM_SAMPLES → 0 ≤ env.wine_labels i ∧ env.wine_labels i < 3) :
    (initState m0).correct = 0 ∧
    (∃ st : EvalState, evalLoop (initState m0) ps = some st ∧
      st.correct = st.conf_matrix 0 0 + st.conf_matrix 1 1 + st.conf_matrix 2 2) ∧
    (∀ k : Nat, k ≤ NUM_SAMPLES → ∃ st : EvalState, evaluate env k m0 = some st ∧
      st.correct = st.conf_matrix 0 0 + st.conf_matrix 1 1 + st.conf_matrix 2 2) := by
  refine ⟨rfl, ?_, ?_⟩
  · obtain ⟨st, h1, _, _, _, h5⟩ := evalLoop_spec ps (initState m0) hv
      (by intro r c; simp [initState, zero_matrix_eq]; exact hlen)
      (by simp [initState]; exact hlen)
    refine ⟨st, h1, ?_⟩
    have h0 : diagSum (initState m0).conf_matrix = 0 := by
      simp [initState, zero_matrix_eq, diagSum]
    rw [h0] at h5
    simp only [initState, diagSum] at h5
    omega
  · intro k hk
    have h178 : k ≤ 178 := hk
    obtain ⟨st, h1, _, _, h4⟩ := evaluate_spec env k m0
      (by unfold INT_MAX; omega) (fun i hi => hl i (lt_of_lt_of_le hi hk))
    exact ⟨st, h1, h4⟩

/-- Witness for C5: four recorded pairs, two of them on the diagonal. -/
theorem correct_eq_diagonal_witness :
    (initState (fun _ _ => 5)).correct = 0 ∧
    (∃ st : EvalState,
      evalLoop (initState (fun _ _ => 5)) [(0, 0), (1, 2), (2, 2), (0, 1)] = some st ∧
      st.correct = st.conf_matrix 0 0 + st.conf_matrix 1 1 + st.conf_matrix 2 2) ∧
    (∀ k : Nat, k ≤ NUM_SAMPLES → ∃ st : EvalState,
      evaluate exampleEnv k (fun _ _ => 5) = some st ∧
      st.correct = st.conf_matrix 0 0 + st.conf_matrix 1 1 + st.conf_matrix 2 2) :=
  correct_eq_diagonal exampleEnv (fun _ _ => 5) [(0, 0), (1, 2), (2, 2), (0, 1)]
    (by decide) (by decide) (fun i _ => by simp only [exampleEnv]; omega)

/-- C6: one record step with labels `real`, `pred` in `[0, 3)`, on a state
whose counters can still be incremented, is defined, adds exactly one to
`conf_matrix[real][pred]`, leaves the other eight counters as they were, and
adds one to `correct` when `real == pred` and nothing otherwise. -/
theorem recordStep_frame (st : EvalState) (real pred : Int)
    (hr : 0 ≤ real ∧ real < 3) (hp : 0 ≤ pred ∧ pred < 3)
    (hm : ∀ r c : Fin 3, st.conf_matrix r c < INT_MAX) (hc : st.correct < INT_MAX) :
    ∃ (st1 : EvalState) (r c : Fin 3), recordStep st real pred = some st1 ∧
      (r.val : Int) = real ∧ (c.val : Int) = pred ∧
      st1.conf_matrix r c = st.conf_matrix r c + 1 ∧
      (∀ r1 c1 : Fin 3, r1 ≠ r ∨ c1 ≠ c → st1.conf_matrix r1 c1 = st.conf_matrix r1 c1) ∧
      (real = pred → st1.correct = st.correct + 1) ∧
      (real ≠ pred → st1.correct = st.correct) := by
  obtain ⟨r, hr1⟩ := exists_index real hr.1 hr.2
  obtain ⟨c, hc1⟩ := exists_index pred hp.1 hp.2
  have hstep := recordStep_eq st r c (hm r c) hc
  rw [hr1, hc1] at hstep
  refine ⟨_, r, c, hstep, hr1, hc1, by simp, ?_, ?_, ?_⟩
  · intro r1 c1 h
    by_cases e1 : r1 = r
    · subst e1
      have e2 : c1 ≠ c := by
        rcases h with h | h
        · exact absurd rfl h
        · exact h
      simp [Function.update_noteq e2]
    · simp [Function.update_noteq e1]
  · intro e
    have : c = r := (coe_index_inj r c).1 (by rw [hr1, hc1, e])
    simp [this]
  · intro e
    have : ¬ c = r := fun h => e (by rw [← hr1, ← hc1, h])
    simp [this]

/-- Witness for C6: an off-diagonal step from the zeroed state. -/
theorem recordStep_frame_witness :
    ∃ (st1 : EvalState) (r c : Fin 3), recordStep (initState (fun _ _ => 5)) 1 2 = some st1 ∧
      (r.val : Int) = 1 ∧ (c.val : Int) = 2 ∧
      st1.conf_matrix r c = (initState (fun _ _ => 5)).conf_matrix r c + 1 ∧
      (∀ r1 c1 : Fin 3, r1 ≠ r ∨ c1 ≠ c →
        st1.conf_matrix r1 c1 = (initState (fun _ _ => 5)).conf_matrix r1 c1) ∧
      ((1 : Int) = 2 → st1.correct = (initState (fun _ _ => 5)).correct + 1) ∧
      ((1 : Int) ≠ 2 → st1.correct = (initState (fun _ _ => 5)).correct) :=
  recordStep_frame (initState (fun _ _ => 5)) 1 2 (by decide) (by decide)
    (by decide) (by decide)

/-- C7: for every list of in-range pairs and every permutation of it,
accumulating either list from the zeroed state is defined and ends in the same
state: the same confusion matrix and the same `correct`. -/
theorem evalLoop_perm (m0 : ConfMatrix) (ps qs : List (Int × Int))
    (hperm : ps.Perm qs) (hv : ∀ p ∈ ps, validPair p)
    (hlen : (ps.length : Int) ≤ INT_MAX) :
    ∃ st : EvalState, evalLoop (initState m0) ps = some st ∧
      evalLoop (initState m0) qs = some st := by
  have hlenq : (qs.length : Int) ≤ INT_MAX := by rw [← hperm.length_eq]; exact hlen
  obtain ⟨st, h1, h2, h3, _, _⟩ := evalLoop_spec ps (initState m0) hv
    (by intro r c; simp [initState, zero_matrix_eq]; exact hlen)
    (by simp [initState]; exact hlen)
  obtain ⟨su, k1, k2, k3, _, _⟩ := evalLoop_spec qs (initState m0)
    (fun q hq => hv q (hperm.mem_iff.2 hq))
    (by intro r c; simp [initState, zero_matrix_eq]; exact hlenq)
    (by simp [initState]; exact hlenq)
  refine ⟨st, h1, ?_⟩
  have hm : su.conf_matrix = st.conf_matrix := by
    funext r c
    rw [h2 r c, k2 r c, hperm.countP_eq]
  have hcor : su.correct = st.correct := by
    rw [h3, k3, hperm.countP_eq]
  have : su = st := by
    cases su
    cases st
    simp only at hm hcor
    rw [hm, hcor]
  rw [k1, this]

/-- Witness for C7: a list of four pairs and its reversal. -/
theorem evalLoop_perm_witness :
    ∃ st : EvalState,
      evalLoop (initState (fun _ _ => 5)) [(0, 0), (1, 2), (2, 2), (0, 1)] = some st ∧
      evalLoop (initState (fun _ _ => 5)) [(0, 1), (2, 2), (1, 2), (0, 0)] = some st :=
  evalLoop_perm (fun _ _ => 5) [(0, 0), (1, 2), (2, 2), (0, 1)] [(0, 1), (2, 2), (1, 2), (0, 0)]
    (by decide) (by decide) (by decide)

/-! ### Accuracy in single precision -/

theorem int_log_two (q : ℚ) (k : Int) (h0 : 0 < q) (h1 : (2 : ℚ) ^ k ≤ q)
    (h2 : q < (2 : ℚ) ^ (k + 1)) : Int.log 2 q = k := by
  have hb : 1 < (2 : ℕ) := by decide
  have a : k ≤ Int.log 2 q := (Int.zpow_le_iff_le_log hb h0).1 (by exact_mod_cast h1)
  have b : Int.log 2 q < k + 1 := (Int.lt_zpow_iff_log_lt hb h0).1 (by exact_mod_cast h2)
  omega

theorem roundHalfEven_intCast (n : Int) : roundHalfEven (n : ℚ) = n := by
  simp [roundHalfEven]

theorem roundHalfEven_up (q : ℚ) (f : Int) (h1 : (f : ℚ) + 1 / 2 < q) (h2 : q < (f : ℚ) + 1) :
    roundHalfEven q = f + 1 := by
  have hf : ⌊q⌋ = f := Int.floor_eq_iff.2 ⟨by linarith, h2⟩
  unfold roundHalfEven
  rw [hf, if_neg (by linarith), if_pos (by linarith)]

/-- The rounded integer is within one half of the number. -/
theorem roundHalfEven_error (q : ℚ) : |((roundHalfEven q : Int) : ℚ) - q| ≤ 1 / 2 := by
  have h1 := Int.floor_le q
  have h2 := Int.lt_floor_add_one q
  unfold roundHalfEven
  rw [abs_le]
  split_ifs <;> push_cast <;> constructor <;> linarith

/-- The binary32 value of a positive number of the normal range, from its
binade `2 ^ k ≤ q < 2 ^ (k + 1)` and its rounded significand `m`. -/
theorem toBinary32_pos (q : ℚ) (k m : Int) (hq : 0 < q) (hk1 : (2 : ℚ) ^ k ≤ q)
    (hk2 : q < (2 : ℚ) ^ (k + 1)) (hk : -126 ≤ k)
    (hm : roundHalfEven (q / (2 : ℚ) ^ (k - 23)) = m)
    (hfin : (m : ℚ) * (2 : ℚ) ^ (k - 23) < (2 : ℚ) ^ (128 : Int)) :
    toBinary32 q = some ((m : ℚ) * (2 : ℚ) ^ (k - 23)) := by
  have hl : Int.log 2 q = k := int_log_two q k hq hk1 hk2
  have he : max (k - 23) (-149) = k - 23 := max_eq_left (by omega)
  unfold toBinary32
  simp only [abs_of_pos hq, hl, he, hm]
  rw [if_neg (ne_of_gt hq), if_pos hfin, if_neg (not_lt.2 (le_of_lt hq))]

theorem toBinary32_two : toBinary32 2 = some 2 := by
  have h := toBinary32_pos 2 1 8388608 (by norm_num) (by norm_num) (by norm_num) (by norm_num)
    (by
      have e : (2 : ℚ) / (2 : ℚ) ^ ((1 : Int) - 23) = ((8388608 : Int) : ℚ) := by norm_num
      rw [e, roundHalfEven_intCast])
    (by norm_num)
  rw [h]
  norm_num

theorem toBinary32_three : toBinary32 3 = some 3 := by
  have h := toBinary32_pos 3 1 12582912 (by norm_num) (by norm_num) (by norm_num) (by norm_num)
    (by
      have e : (3 : ℚ) / (2 : ℚ) ^ ((1 : Int) - 23) = ((12582912 : Int) : ℚ) := by norm_num
      rw [e, roundHalfEven_intCast])
    (by norm_num)
  rw [h]
  norm_num

/-- The number 2/3 lies strictly between the neighbouring binary32 values
`11184810 / 2 ^ 24` and `11184811 / 2 ^ 24`, nearer to the second. -/
theorem toBinary32_two_thirds : toBinary32 (2 / 3) = some (11184811 / 16777216) := by
  have h := toBinary32_pos (2 / 3) (-1) 11184811 (by norm_num) (by norm_num) (by norm_num)
    (by norm_num)
    (roundHalfEven_up _ 11184810 (by norm_num) (by norm_num))
    (by norm_num)
  rw [h]
  norm_num

/-- The single-precision quotient of 2 by 3. -/
theorem accuracy_two_three : accuracy 2 3 = some (11184811 / 16777216) := by
  unfold accuracy
  norm_num [toBinary32_two, toBinary32_three, toBinary32_two_thirds]

/-- C8, amended: on a dataset of 3 samples with true labels `[0, 1, 2]` and
predicted labels `[0, 1, 1]`, the evaluation is defined and ends with
`conf_matrix[0][0] = conf_matrix[1][1] = conf_matrix[2][1] = 1`, the six other
counters 0 and `correct = 2`; the exact quotient `correct / 3` is `2/3`, and
the accuracy the code computes, `(float)correct / 3`, is the binary32 value
nearest to it, `11184811 / 16777216`, which exceeds `2/3` by `1 / 50331648`. -/
theorem end_to_end_scenario {F : Type} [Sub F] [Div F] [LT F] [∀ a b : F, Decidable (a < b)]
    (env : Env F) (m0 : ConfMatrix)
    (hreal : (List.range 3).map env.wine_labels = [0, 1, 2])
    (hpred : (List.range 3).map (fun i => (samplePair env i).2) = [0, 1, 1]) :
    ∃ st : EvalState, evaluate env 3 m0 = some st ∧
      evalLoop (initState m0) [(0, 0), (1, 1), (2, 1)] = some st ∧
      st.conf_matrix 0 0 = 1 ∧ st.conf_matrix 0 1 = 0 ∧ st.conf_matrix 0 2 = 0 ∧
      st.conf_matrix 1 0 = 0 ∧ st.conf_matrix 1 1 = 1 ∧ st.conf_matrix 1 2 = 0 ∧
      st.conf_matrix 2 0 = 0 ∧ st.conf_matrix 2 1 = 1 ∧ st.conf_matrix 2 2 = 0 ∧
      st.correct = 2 ∧ (st.correct : ℚ) / 3 = 2 / 3 ∧
      accuracy st.correct 3 = some (11184811 / 16777216) ∧
      (11184811 / 16777216 : ℚ) - 2 / 3 = 1 / 50331648 := by
  have hpairs : (List.range 3).map (samplePair env) = [(0, 0), (1, 1), (2, 1)] := by
    have e : List.range 3 = [0, 1, 2] := by decide
    rw [e] at hreal hpred ⊢
    simp only [List.map_cons, List.map_nil, List.cons.injEq, and_true] at hreal hpred ⊢
    obtain ⟨a0, a1, a2⟩ := hreal
    obtain ⟨b0, b1, b2⟩ := hpred
    refine ⟨Prod.ext a0 b0, Prod.ext a1 b1, Prod.ext a2 b2⟩
  obtain ⟨st, h1, h2, h3, _, _⟩ := evalLoop_spec [(0, 0), (1, 1), (2, 1)] (initState m0)
    (by decide)
    (by intro r c; simp [initState, zero_matrix_eq, INT_MAX])
    (by simp [initState, INT_MAX])
  have hz : ∀ r c : Fin 3, (initState m0).conf_matrix r c = 0 := by
    intro r c; simp [initState, zero_matrix_eq]
  have hc : st.correct = 2 := by rw [h3]; simp only [initState]; decide
  refine ⟨st, ?_, h1, ?_, ?_, ?_, ?_, ?_, ?_, ?_, ?_, ?_, hc, ?_, ?_, ?_⟩
  · rw [evaluate, runLoop_eq_evalLoop, hpairs]; exact h1
  all_goals try (rw [h2, hz]; decide)
  · rw [hc]; norm_num
  · rw [hc]; exact accuracy_two_three
  · norm_num

/-- Witness for C8: the first three samples of `exampleEnv`. -/
theorem end_to_end_scenario_witness :
    ∃ st : EvalState, evaluate exampleEnv 3 (fun _ _ => 5) = some st ∧
      evalLoop (initState (fun _ _ => 5)) [(0, 0), (1, 1), (2, 1)] = some st ∧
      st.conf_matrix 0 0 = 1 ∧ st.conf_matrix 0 1 = 0 ∧ st.conf_matrix 0 2 = 0 ∧
      st.conf_matrix 1 0 = 0 ∧ st.conf_matrix 1 1 = 1 ∧ st.conf_matrix 1 2 = 0 ∧
      st.conf_matrix 2 0 = 0 ∧ st.conf_matrix 2 1 = 1 ∧ st.conf_matrix 2 2 = 0 ∧
      st.correct = 2 ∧ (st.correct : ℚ) / 3 = 2 / 3 ∧
      accuracy st.correct 3 = some (11184811 / 16777216) ∧
      (11184811 / 16777216 : ℚ) - 2 / 3 = 1 / 50331648 :=
  end_to_end_scenario exampleEnv (fun _ _ => 5) (by decide) (by decide)

/-! ### Rendering -/

/-- A counter between -9999 and 99999 has a decimal string of at most five
characters, so `sprintf` into `buf[6]` is defined. -/
theorem sprintf_d_fits (n : Int) (h1 : -9999 ≤ n) (h2 : n ≤ 99999) :
    sprintf_d 6 n = some (toString n) := by
  have hlen : (toString n).length ≤ 5 := by
    cases n with
    | ofNat k =>
      have hk : k < 10 ^ 5 := by
        have : (k : Int) ≤ 99999 := h2
        omega
      exact Nat.repr_length k 5 (by decide) hk
    | negSucc k =>
      have hk : k + 1 < 10 ^ 4 := by
        have : -9999 ≤ Int.negSucc k := h1
        rw [Int.negSucc_eq] at this
        omega
      have := Nat.repr_length (k + 1) 4 (by decide) hk
      show ("-" ++ Nat.repr (k + 1)).length ≤ 5
      rw [String.length_append]
      have h1 : "-".length = 1 := by decide
      omega
  unfold sprintf_d
  rw [if_pos (by omega)]

/-- The cell loops are defined on a matrix that fits the buffer and append
the nine calls of `cell_calls` to the calls made before. -/
theorem draw_cells_eq (L : Layout) (m : ConfMatrix) (hfit : fitsBuffer m) (tr : List DrawCmd) :
    draw_cells L m tr = some (tr ++ cell_calls L m) := by
  have hs : ∀ r c : Fin 3, sprintf_d 6 (m r c) = some (toString (m r c)) :=
    fun r c => sprintf_d_fits (m r c) (hfit r c).1 (hfit r c).2
  simp only [draw_cells, finRange_three, forM3, draw_cell, hs, Option.some_bind, cell_calls]
  simp

/-- The whole sequence of driver calls of the renderer. -/
theorem render_eq (L : Layout) (m : ConfMatrix) (hfit : fitsBuffer m) :
    render L m = some ([.fill false, .draw_string "Matriz Confusao" 5 0] ++
      grid_lines (NUM_CLASSES : Int) L ++ cell_calls L m ++ [.send_data]) := by
  rw [render, draw_cells_eq L m hfit]
  rfl

/-- C9: with `NUM_CLASSES = 3`, `cell_w = 35`, `cell_h = 18`, `start_x = 0`,
`start_y = 10` the renderer issues exactly 8 line calls: 4 horizontal ones from
`x = 0` to `x = 105` at `y = 10, 28, 46, 61`, the last at
`start_y + 3 * cell_h - 3 = 61` and none at the raw 64, then 4 vertical ones at
`x = 0, 35, 70, 105`, each from `y = 10` to `y = 61`. -/
theorem render_grid_lines (m : ConfMatrix) (hfit : fitsBuffer m) :
    ∃ tr : List DrawCmd, render layout0 m = some tr ∧
      tr.filter DrawCmd.isLine =
        [ .line 0 10 105 10 true, .line 0 28 105 28 true,
          .line 0 46 105 46 true, .line 0 61 105 61 true,
          .line 0 10 0 61 true, .line 35 10 35 61 true,
          .line 70 10 70 61 true, .line 105 10 105 61 true ] ∧
      (tr.filter DrawCmd.isLine).length = 8 ∧
      tr.filter DrawCmd.isLine = grid_lines 3 layout0 ∧
      layout0.start_y + (NUM_CLASSES : Int) * layout0.cell_h - 3 = 61 ∧
      layout0.start_y + (NUM_CLASSES : Int) * layout0.cell_h = 64 ∧
      (∀ x0 x1 : Int, ∀ b : Bool, DrawCmd.line x0 64 x1 64 b ∉ tr) := by
  refine ⟨_, render_eq layout0 m hfit, ?_⟩
  have hlines : List.filter DrawCmd.isLine
      ([DrawCmd.fill false, DrawCmd.draw_string "Matriz Confusao" 5 0] ++
        grid_lines (NUM_CLASSES : Int) layout0 ++ cell_calls layout0 m ++ [DrawCmd.send_data]) =
        [ .line 0 10 105 10 true, .line 0 28 105 28 true,
          .line 0 46 105 46 true, .line 0 61 105 61 true,
          .line 0 10 0 61 true, .line 35 10 35 61 true,
          .line 70 10 70 61 true, .line 105 10 105 61 true ] := by
    simp [List.filter, DrawCmd.isLine, grid_lines, cell_calls, layout0, NUM_CLASSES]
  refine ⟨hlines, by rw [hlines]; rfl, by rw [hlines]; decide, by decide, by decide, ?_⟩
  intro x0 x1 b hmem
  simp [grid_lines, cell_calls, layout0, NUM_CLASSES] at hmem

/-- Witness for C9: the renderer on `exampleMatrix`. -/
theorem render_grid_lines_witness :
    ∃ tr : List DrawCmd, render layout0 exampleMatrix = some tr ∧
      tr.filter DrawCmd.isLine =
        [ .line 0 10 105 10 true, .line 0 28 105 28 true,
          .line 0 46 105 46 true, .line 0 61 105 61 true,
          .line 0 10 0 61 true, .line 35 10 35 61 true,
          .line 70 10 70 61 true, .line 105 10 105 61 true ] ∧
      (tr.filter DrawCmd.isLine).length = 8 ∧
      tr.filter DrawCmd.isLine = grid_lines 3 layout0 ∧
      layout0.start_y + (NUM_CLASSES : Int) * layout0.cell_h - 3 = 61 ∧
      layout0.start_y + (NUM_CLASSES : Int) * layout0.cell_h = 64 ∧
      (∀ x0 x1 : Int, ∀ b : Bool, DrawCmd.line x0 64 x1 64 b ∉ tr) :=
  render_grid_lines exampleMatrix (by decide)

/-- C10: for every confusion matrix whose counters fit the text buffer, the
text calls of the renderer are the header followed by exactly one call per
cell, in row-major order; the call of cell `(r, c)` carries the decimal string
of `conf_matrix[r][c]` and the anchor
`(start_x + c * cell_w + 8, start_y + r * cell_h + 6)`; and with the configured
layout that anchor lies strictly between the two vertical lines and strictly
between the two horizontal lines drawn around the cell, the bottom border
being the inset one. -/
theorem render_cell_texts (m : ConfMatrix) (hfit : fitsBuffer m) :
    ∃ tr cells : List DrawCmd, render layout0 m = some tr ∧
      tr.filter DrawCmd.isText = .draw_string "Matriz Confusao" 5 0 :: cells ∧
      cells.length = 9 ∧
      (∀ r c : Fin 3, cells[3 * r.val + c.val]? = some
        (.draw_string (toString (m r c))
          (layout0.start_x + (c.val : Int) * layout0.cell_w + 8)
          (layout0.start_y + (r.val : Int) * layout0.cell_h + 6))) ∧
      (∀ r c : Fin 3, ∃ xl xr yt yb : Int,
        (tr.filter DrawCmd.isLine)[r.val]? = some (.line 0 yt 105 yt true) ∧
        (tr.filter DrawCmd.isLine)[r.val + 1]? = some (.line 0 yb 105 yb true) ∧
        (tr.filter DrawCmd.isLine)[4 + c.val]? = some (.line xl 10 xl 61 true) ∧
        (tr.filter DrawCmd.isLine)[5 + c.val]? = some (.line xr 10 xr 61 true) ∧
        xl = layout0.start_x + (c.val : Int) * layout0.cell_w ∧
        xr = layout0.start_x + ((c.val : Int) + 1) * layout0.cell_w ∧
        xl < layout0.start_x + (c.val : Int) * layout0.cell_w + 8 ∧
        layout0.start_x + (c.val : Int) * layout0.cell_w + 8 < xr ∧
        yt < layout0.start_y + (r.val : Int) * layout0.cell_h + 6 ∧
        layout0.start_y + (r.val : Int) * layout0.cell_h + 6 < yb) := by
  refine ⟨_, cell_calls layout0 m, render_eq layout0 m hfit, ?_, rfl, ?_, ?_⟩
  · simp [List.filter, DrawCmd.isText, grid_lines, cell_calls]
  · intro r c
    fin_cases r <;> fin_cases c <;> simp [cell_calls]
  · intro r c
    have hlines : List.filter DrawCmd.isLine
        ([DrawCmd.fill false, DrawCmd.draw_string "Matriz Confusao" 5 0] ++
          grid_lines (NUM_CLASSES : Int) layout0 ++ cell_calls layout0 m ++ [DrawCmd.send_data]) =
        grid_lines 3 layout0 := by
      simp [List.filter, DrawCmd.isLine, grid_lines, cell_calls, NUM_CLASSES]
    rw [hlines]
    refine ⟨35 * (c.val : Int), 35 * ((c.val : Int) + 1), 10 + 18 * (r.val : Int),
      if r.val = 2 then 61 else 28 + 18 * (r.val : Int), ?_⟩
    fin_cases r <;> fin_cases c <;> decide

/-- Witness for C10: the renderer on `exampleMatrix`. -/
theorem render_cell_texts_witness :
    ∃ tr cells : List DrawCmd, render layout0 exampleMatrix = some tr ∧
      tr.filter DrawCmd.isText = .draw_string "Matriz Confusao" 5 0 :: cells ∧
      cells.length = 9 ∧
      (∀ r c : Fin 3, cells[3 * r.val + c.val]? = some
        (.draw_string (toString (exampleMatrix r c))
          (layout0.start_x + (c.val : Int) * layout0.cell_w + 8)
          (layout0.start_y + (r.val : Int) * layout0.cell_h + 6))) ∧
      (∀ r c : Fin 3, ∃ xl xr yt yb : Int,
        (tr.filter DrawCmd.isLine)[r.val]? = some (.line 0 yt 105 yt true) ∧
        (tr.filter DrawCmd.isLine)[r.val + 1]? = some (.line 0 yb 105 yb true) ∧
        (tr.filter DrawCmd.isLine)[4 + c.val]? = some (.line xl 10 xl 61 true) ∧
        (tr.filter DrawCmd.isLine)[5 + c.val]? = some (.line xr 10 xr 61 true) ∧
        xl = layout0.start_x + (c.val : Int) * layout0.cell_w ∧
        xr = layout0.start_x + ((c.val : Int) + 1) * layout0.cell_w ∧
        xl < layout0.start_x + (c.val : Int) * layout0.cell_w + 8 ∧
        layout0.start_x + (c.val : Int) * layout0.cell_w + 8 < xr ∧
        yt < layout0.start_y + (r.val : Int) * layout0.cell_h + 6 ∧
        layout0.start_y + (r.val : Int) * layout0.cell_h + 6 < yb) :=
  render_cell_texts exampleMatrix (by decide)

/-- Counterexample to C11 as stated: with the class count 2 in place of 3 the
written-out calls still draw 4 horizontal and 4 vertical lines, where the
specification asks for 3 and 3; the fourth horizontal line sits at
`start_y + 3 * cell_h - 3 = 61`, below the end `y = 43` of the vertical ones,
and the fourth vertical line at `x = 105`, right of the end `x = 70` of the
horizontal ones. -/
theorem grid_lines_not_generic :
    grid_lines 2 layout0 =
      [ .line 0 10 70 10 true, .line 0 28 70 28 true,
        .line 0 46 70 46 true, .line 0 61 70 61 true,
        .line 0 10 0 43 true, .line 35 10 35 43 true,
        .line 70 10 70 43 true, .line 105 10 105 43 true ] ∧
    spec_grid_lines 2 layout0 =
      [ .line 0 10 70 10 true, .line 0 28 70 28 true, .line 0 43 70 43 true,
        .line 0 10 0 43 true, .line 35 10 35 43 true, .line 70 10 70 43 true ] ∧
    (grid_lines 2 layout0).length = 8 ∧ (spec_grid_lines 2 layout0).length = 6 ∧
    grid_lines 2 layout0 ≠ spec_grid_lines 2 layout0 := by
  decide

/-- C11, amended: the line calls take `cell_w`, `cell_h`, `start_x`, `start_y`
as parameters but are written out for the class count 3.  For every layout,
with `NUM_CLASSES = 3` they are the 4 horizontal lines (at `y0 + r * h` for
`r < 3` and at `y0 + 3 * h - 3`) from `x0` to `x0 + 3 * w` and the 4 vertical
lines at `x0 + c * w`, `c` in `[0, 3]`, of the specification; and 3 is the only
class count for which the calls are those of the specification. -/
theorem grid_lines_three (L : Layout) :
    grid_lines (NUM_CLASSES : Int) L = spec_grid_lines 3 L ∧
    (grid_lines (NUM_CLASSES : Int) L).length = 8 ∧
    (∀ N : Nat, grid_lines (N : Int) L = spec_grid_lines N L ↔ N = 3) := by
  have h3 : grid_lines ((3 : Nat) : Int) L = spec_grid_lines 3 L := by
    simp only [grid_lines, spec_grid_lines, List.range_succ, List.range_zero, List.nil_append,
      List.map_append, List.map_cons, List.map_nil, List.cons_append, Nat.cast_ofNat]
    simp
    constructor <;> ring
  refine ⟨h3, rfl, ?_⟩
  intro N
  constructor
  · intro h
    have h1 : (grid_lines (N : Int) L).length = 8 := rfl
    have h2 : (spec_grid_lines N L).length = (N + 1) + (N + 1) := by
      simp only [spec_grid_lines, List.length_append, List.length_map, List.length_range]
    rw [h, h2] at h1
    omega
  · intro h
    subst h
    exact h3

/-- C12: for every confusion matrix whose counters fit the text buffer, the
calls of the renderer are: first the clearing `fill`, then the header
"Matriz Confusao" at `(5, 0)`, above the grid origin (`0 < start_y = 10`), then
the 8 lines, then the 9 cell texts, then `send_data`; `send_data` occurs
exactly once and is the last call. -/
theorem render_sequence (m : ConfMatrix) (hfit : fitsBuffer m) :
    ∃ tr lines texts : List DrawCmd, render layout0 m = some tr ∧
      tr = [.fill false, .draw_string "Matriz Confusao" 5 0] ++ lines ++ texts ++ [.send_data] ∧
      tr.head? = some (.fill false) ∧
      tr[1]? = some (.draw_string "Matriz Confusao" 5 0) ∧
      (0 : Int) < layout0.start_y ∧ layout0.start_y = 10 ∧
      lines.length = 8 ∧ (∀ c ∈ lines, c.isLine = true) ∧
      texts.length = 9 ∧ (∀ c ∈ texts, c.isText = true) ∧
      tr.count .send_data = 1 ∧
      tr.getLast? = some .send_data := by
  refine ⟨_, grid_lines (NUM_CLASSES : Int) layout0, cell_calls layout0 m,
    render_eq layout0 m hfit, rfl, rfl, rfl, by decide, rfl, rfl, by decide, rfl, ?_, ?_, ?_⟩
  · intro c hc
    simp only [cell_calls, List.mem_cons, List.mem_singleton, List.not_mem_nil, or_false] at hc
    rcases hc with h | h | h | h | h | h | h | h | h <;> rw [h] <;> rfl
  · have h1 : List.count DrawCmd.send_data
        ([DrawCmd.fill false, DrawCmd.draw_string "Matriz Confusao" 5 0] ++
          grid_lines (NUM_CLASSES : Int) layout0) = 0 := by decide
    have h2 : List.count DrawCmd.send_data (cell_calls layout0 m) = 0 :=
      List.count_eq_zero.2 (fun h => by simp [cell_calls] at h)
    rw [List.count_append, List.count_append, h1, h2]
    rfl
  · exact List.getLast?_concat _

/-- Witness for C12: the renderer on `exampleMatrix`. -/
theorem render_sequence_witness :
    ∃ tr lines texts : List DrawCmd, render layout0 exampleMatrix = some tr ∧
      tr = [.fill false, .draw_string "Matriz Confusao" 5 0] ++ lines ++ texts ++ [.send_data] ∧
      tr.head? = some (.fill false) ∧
      tr[1]? = some (.draw_string "Matriz Confusao" 5 0) ∧
      (0 : Int) < layout0.start_y ∧ layout0.start_y = 10 ∧
      lines.length = 8 ∧ (∀ c ∈ lines, c.isLine = true) ∧
      texts.length = 9 ∧ (∀ c ∈ texts, c.isText = true) ∧
      tr.count .send_data = 1 ∧
      tr.getLast? = some .send_data :=
  render_sequence exampleMatrix (by decide)

/-- The points named by the calls of the renderer with the configured layout:
they do not depend on the matrix. -/
theorem render_points (m : ConfMatrix) :
    ([DrawCmd.fill false, DrawCmd.draw_string "Matriz Confusao" 5 0] ++
      grid_lines (NUM_CLASSES : Int) layout0 ++ cell_calls layout0 m ++
      [DrawCmd.send_data]).flatMap DrawCmd.points =
    [ (5, 0), (0, 10), (105, 10), (0, 28), (105, 28), (0, 46), (105, 46), (0, 61), (105, 61),
      (0, 10), (0, 61), (35, 10), (35, 61), (70, 10), (70, 61), (105, 10), (105, 61),
      (8, 16), (43, 16), (78, 16), (8, 34), (43, 34), (78, 34), (8, 52), (43, 52), (78, 52) ] := by
  simp [grid_lines, cell_calls, DrawCmd.points, layout0, NUM_CLASSES, List.flatMap]

/-- C13: with the configured layout on the 128 x 64 canvas, every endpoint of
every line and every text anchor issued by the renderer has `0 ≤ x < 128` and
`0 ≤ y < 64`; the bottom border is at `y = 61`, and without the inset of 3 it
would be at `start_y + NUM_CLASSES * cell_h = 64`, which is not on the canvas. -/
theorem render_on_canvas (m : ConfMatrix) (hfit : fitsBuffer m) :
    ∃ tr : List DrawCmd, render layout0 m = some tr ∧
      (∀ cmd ∈ tr, ∀ p ∈ cmd.points,
        (0 ≤ p.1 ∧ p.1 < 128) ∧ (0 ≤ p.2 ∧ p.2 < 64)) ∧
      CANVAS_WIDTH = 128 ∧ CANVAS_HEIGHT = 64 ∧
      DrawCmd.line 0 61 105 61 true ∈ tr ∧
      layout0.start_y + (NUM_CLASSES : Int) * layout0.cell_h - 3 = 61 ∧
      layout0.start_y + (NUM_CLASSES : Int) * layout0.cell_h = 64 ∧
      (∀ x : Int, ¬ onCanvas (x, layout0.start_y + (NUM_CLASSES : Int) * layout0.cell_h)) := by
  refine ⟨_, render_eq layout0 m hfit, ?_, rfl, rfl, ?_, by decide, by decide, ?_⟩
  · intro cmd hcmd p hp
    have hmem : p ∈ ([DrawCmd.fill false, DrawCmd.draw_string "Matriz Confusao" 5 0] ++
        grid_lines (NUM_CLASSES : Int) layout0 ++ cell_calls layout0 m ++
        [DrawCmd.send_data]).flatMap DrawCmd.points :=
      List.mem_flatMap.2 ⟨cmd, hcmd, hp⟩
    rw [render_points] at hmem
    have key : ∀ q ∈ ([ (5, 0), (0, 10), (105, 10), (0, 28), (105, 28), (0, 46), (105, 46),
        (0, 61), (105, 61), (0, 10), (0, 61), (35, 10), (35, 61), (70, 10), (70, 61),
        (105, 10), (105, 61), (8, 16), (43, 16), (78, 16), (8, 34), (43, 34), (78, 34),
        (8, 52), (43, 52), (78, 52) ] : List (Int × Int)),
        (0 ≤ q.1 ∧ q.1 < 128) ∧ (0 ≤ q.2 ∧ q.2 < 64) := by decide
    exact key p hmem
  · simp [grid_lines, layout0, NUM_CLASSES]
  · intro x h
    have h2 : (64 : Int) < 64 := h.2.2
    exact absurd h2 (by decide)

/-- Witness for C13: the renderer on `exampleMatrix`. -/
theorem render_on_canvas_witness :
    ∃ tr : List DrawCmd, render layout0 exampleMatrix = some tr ∧
      (∀ cmd ∈ tr, ∀ p ∈ cmd.points,
        (0 ≤ p.1 ∧ p.1 < 128) ∧ (0 ≤ p.2 ∧ p.2 < 64)) ∧
      CANVAS_WIDTH = 128 ∧ CANVAS_HEIGHT = 64 ∧
      DrawCmd.line 0 61 105 61 true ∈ tr ∧
      layout0.start_y + (NUM_CLASSES : Int) * layout0.cell_h - 3 = 61 ∧
      layout0.start_y + (NUM_CLASSES : Int) * layout0.cell_h = 64 ∧
      (∀ x : Int, ¬ onCanvas (x, layout0.start_y + (NUM_CLASSES : Int) * layout0.cell_h)) :=
  render_on_canvas exampleMatrix (by decide)

/-! ### The whole program -/

/-- The state after the first `k` samples in closed form: each counter is the
number of samples among them with that pair of labels, `correct` the number
of those with equal labels. -/
theorem evaluate_counts {F : Type} [Sub F] [Div F] [LT F] [∀ a b : F, Decidable (a < b)]
    (env : Env F) (k : Nat) (m0 : ConfMatrix) (hk : (k : Int) ≤ INT_MAX)
    (hl : ∀ i, i < k → 0 ≤ env.wine_labels i ∧ env.wine_labels i < 3) :
    ∃ st : EvalState, evaluate env k m0 = some st ∧
      (∀ r c : Fin 3, st.conf_matrix r c =
        (((List.range k).countP fun i =>
          decide ((samplePair env i).1 = (r.val : Int) ∧ (samplePair env i).2 = (c.val : Int))
          : Nat) : Int)) ∧
      st.correct =
        (((List.range k).countP fun i =>
          decide ((samplePair env i).2 = (samplePair env i).1) : Nat) : Int) := by
  have hv : ∀ p ∈ (List.range k).map (samplePair env), validPair p := by
    intro p hp
    obtain ⟨i, hi, rfl⟩ := List.mem_map.1 hp
    exact samplePair_valid env i (hl i (List.mem_range.1 hi))
  obtain ⟨st, h1, h2, h3, _, _⟩ := evalLoop_spec _ (initState m0) hv
    (by intro r c; simp [initState, zero_matrix_eq]; exact hk)
    (by simp [initState]; exact hk)
  refine ⟨st, ?_, ?_, ?_⟩
  · rw [evaluate, runLoop_eq_evalLoop]; exact h1
  · intro r c
    rw [h2 r c, List.countP_map]
    simp only [initState, zero_matrix_eq, zero_add]
    rfl
  · rw [h3, List.countP_map]
    simp only [initState, zero_add]
    rfl

/-- After the first `k ≤ NUM_SAMPLES` samples every counter and `correct` lie
between 0 and `k`. -/
theorem evaluate_bounds {F : Type} [Sub F] [Div F] [LT F] [∀ a b : F, Decidable (a < b)]
    (env : Env F) (k : Nat) (m0 : ConfMatrix) (hk : k ≤ NUM_SAMPLES)
    (hl : ∀ i, i < NUM_SAMPLES → 0 ≤ env.wine_labels i ∧ env.wine_labels i < 3) :
    ∃ st : EvalState, evaluate env k m0 = some st ∧
      (∀ r c : Fin 3, 0 ≤ st.conf_matrix r c ∧ st.conf_matrix r c ≤ (k : Int)) ∧
      0 ≤ st.correct ∧ st.correct ≤ (k : Int) := by
  have h178 : k ≤ 178 := hk
  obtain ⟨st, h1, h2, h3⟩ := evaluate_counts env k m0 (by unfold INT_MAX; omega)
    (fun i hi => hl i (lt_of_lt_of_le hi hk))
  refine ⟨st, h1, ?_, ?_, ?_⟩
  · intro r c
    rw [h2 r c]
    have := List.countP_le_length
      (fun i => decide ((samplePair env i).1 = (r.val : Int) ∧
        (samplePair env i).2 = (c.val : Int))) (l := List.range k)
    rw [List.length_range] at this
    omega
  · rw [h3]; omega
  · rw [h3]
    have := List.countP_le_length
      (fun i => decide ((samplePair env i).2 = (samplePair env i).1)) (l := List.range k)
    rw [List.length_range] at this
    omega

theorem inferSample_wait (polls : Nat) :
    (wait_for_button_press polls).filterMap Event.inferSample = [] := by
  induction polls with
  | zero => rfl
  | succ n ih =>
    simp only [wait_for_button_press, List.filterMap_append, ih]
    rfl

theorem inferSample_samples {F : Type} [Sub F] [Div F] [LT F] [∀ a b : F, Decidable (a < b)]
    (env : Env F) (l : List Nat) :
    (l.flatMap (sampleEvents env)).filterMap Event.inferSample = l := by
  induction l with
  | nil => rfl
  | cons i l ih =>
    rw [List.flatMap_cons, List.filterMap_append, ih]
    unfold sampleEvents
    split_ifs <;> rfl

theorem inferSample_summary (st : EvalState) :
    (summaryEvents st).filterMap Event.inferSample = [] := by
  simp [summaryEvents, finRange_three, List.flatMap, Event.inferSample]

theorem inferSample_display (l : List DrawCmd) :
    (l.map Event.display).filterMap Event.inferSample = [] := by
  induction l with
  | nil => rfl
  | cons c l _ => simp [Event.inferSample]

/-- The run of `main` when `tflm_init_model` fails. -/
theorem main_failure {F : Type} [Sub F] [Div F] [LT F] [∀ a b : F, Decidable (a < b)]
    (env : Env F) (m0 : ConfMatrix) (status : Int) (button : Option Nat) (hstatus : status ≠ 0) :
    main env status button m0 =
      some { trace := bringUp ++ [Event.tflm_init_model status] ++
               [Event.printf "Falha ao inicializar modelo.\n" []],
             conf_matrix := m0, outcome := Outcome.returned 1 } := by
  simp only [main, hstatus, ne_eq, not_false_eq_true, if_true]

/-- The run of `main` when `tflm_init_model` succeeds, the button is pressed
after `polls` polls, and the evaluation and the drawing are defined. -/
theorem main_success {F : Type} [Sub F] [Div F] [LT F] [∀ a b : F, Decidable (a < b)]
    (env : Env F) (m0 : ConfMatrix) (polls : Nat) (st : EvalState) (drawn : List DrawCmd)
    (h1 : evaluate env NUM_SAMPLES m0 = some st)
    (h2 : render layout0 st.conf_matrix = some drawn) :
    main env 0 (some polls) m0 =
      some { trace := bringUp ++ [Event.tflm_init_model 0] ++ wait_for_button_press polls ++
               [ Event.printf "Modelo inicializado com sucesso!\n" [],
                 Event.printf "Iniciando inferencia nas 178 amostras do dataset Wine...\n" [] ] ++
               (List.range NUM_SAMPLES).flatMap (sampleEvents env) ++
               summaryEvents st ++ drawn.map Event.display ++
               [ Event.printf "\nFim da inferencia. Loop infinito.\n" [] ],
             conf_matrix := st.conf_matrix, outcome := Outcome.idle } := by
  simp only [main, ne_eq, not_true_eq_false, if_false, h1, h2, Option.some_bind]

/-- Counterexample to C14 as stated: `tflm_init_model` returns 0 and the
button is never pressed.  The run never leaves `wait_for_button_press`: its
events end with the call of `tflm_init_model`, the inference is called on no
sample (so not on the 178 samples), and `conf_matrix` is as it was at entry. -/
theorem main_waits_for_button :
    ∃ run : MainRun, main exampleEnv 0 none exampleMatrix = some run ∧
      run.outcome = Outcome.waiting ∧
      run.trace.getLast? = some (Event.tflm_init_model 0) ∧
      run.trace.filterMap Event.inferSample = [] ∧
      run.trace.filterMap Event.inferSample ≠ List.range NUM_SAMPLES ∧
      run.conf_matrix = exampleMatrix :=
  ⟨_, rfl, rfl, by decide, by decide, by decide, rfl⟩

/-- C14, amended.  If `tflm_init_model` returns a non-zero status, `main`
prints the failure message and returns 1, whatever the button does: the run has
no inference call, no display call and no `sleep_ms` (nothing of
`wait_for_button_press` or of the renderer), and `conf_matrix` is as it was at
entry.  If it returns 0, `main` waits for the button: once the button is
pressed (after any number of polls) the inference is called on the samples
`0, ..., 177` in order, `conf_matrix` holds the result of the evaluation loop,
its drawing is sent to the display, and `main` reaches its final loop; while
the button is never pressed no sample is evaluated. -/
theorem main_init_gate {F : Type} [Sub F] [Div F] [LT F] [∀ a b : F, Decidable (a < b)]
    (env : Env F) (m0 : ConfMatrix) (status : Int) (button : Option Nat) (polls : Nat)
    (hstatus : status ≠ 0)
    (hl : ∀ i, i < NUM_SAMPLES → 0 ≤ env.wine_labels i ∧ env.wine_labels i < 3) :
    (∃ run : MainRun, main env status button m0 = some run ∧
      run.outcome = Outcome.returned 1 ∧
      run.trace = bringUp ++
        [Event.tflm_init_model status, Event.printf "Falha ao inicializar modelo.\n" []] ∧
      run.trace.filterMap Event.inferSample = [] ∧
      run.trace.filterMap Event.drawn = [] ∧
      (∀ ms : Int, Event.sleep_ms ms ∉ run.trace) ∧
      run.conf_matrix = m0) ∧
    (∃ (run : MainRun) (st : EvalState) (drawn : List DrawCmd),
      main env 0 (some polls) m0 = some run ∧
      run.outcome = Outcome.idle ∧
      run.trace.filterMap Event.inferSample = List.range NUM_SAMPLES ∧
      evaluate env NUM_SAMPLES m0 = some st ∧
      run.conf_matrix = st.conf_matrix ∧
      render layout0 st.conf_matrix = some drawn ∧
      (∀ c ∈ drawn, Event.display c ∈ run.trace)) ∧
    (∃ run : MainRun, main env 0 none m0 = some run ∧
      run.outcome = Outcome.waiting ∧
      run.trace.filterMap Event.inferSample = [] ∧
      run.conf_matrix = m0) := by
  refine ⟨?_, ?_, ?_⟩
  · refine ⟨_, main_failure env m0 status button hstatus, rfl, ?_, ?_, ?_, ?_, rfl⟩
    · simp
    · simp [bringUp, Event.inferSample]
    · simp [bringUp, Event.drawn]
    · intro ms h
      simp [bringUp] at h
  · obtain ⟨st, h1, h2, _, _⟩ := evaluate_bounds env NUM_SAMPLES m0 (le_refl _) hl
    have hfit : fitsBuffer st.conf_matrix := by
      intro r c
      have := h2 r c
      have h178 : ((NUM_SAMPLES : Nat) : Int) = 178 := rfl
      omega
    have hr := render_eq layout0 st.conf_matrix hfit
    refine ⟨_, st, _, main_success env m0 polls st _ h1 hr, rfl, ?_, h1, rfl, hr, ?_⟩
    · simp only [List.filterMap_append, inferSample_wait, inferSample_samples,
        inferSample_summary, inferSample_display]
      simp [bringUp, Event.inferSample]
    · intro c hc
      exact List.mem_append_left _ (List.mem_append_right _ (List.mem_map.2 ⟨c, hc, rfl⟩))
  · exact ⟨_, rfl, rfl, by simp [bringUp, Event.inferSample], rfl⟩

/-- Witness for C14: `exampleEnv`, status 7, and a press after two polls. -/
theorem main_init_gate_witness :
    (∃ run : MainRun, main exampleEnv 7 (some 4) exampleMatrix = some run ∧
      run.outcome = Outcome.returned 1 ∧
      run.trace = bringUp ++
        [Event.tflm_init_model 7, Event.printf "Falha ao inicializar modelo.\n" []] ∧
      run.trace.filterMap Event.inferSample = [] ∧
      run.trace.filterMap Event.drawn = [] ∧
      (∀ ms : Int, Event.sleep_ms ms ∉ run.trace) ∧
      run.conf_matrix = exampleMatrix) ∧
    (∃ (run : MainRun) (st : EvalState) (drawn : List DrawCmd),
      main exampleEnv 0 (some 2) exampleMatrix = some run ∧
      run.outcome = Outcome.idle ∧
      run.trace.filterMap Event.inferSample = List.range NUM_SAMPLES ∧
      evaluate exampleEnv NUM_SAMPLES exampleMatrix = some st ∧
      run.conf_matrix = st.conf_matrix ∧
      render layout0 st.conf_matrix = some drawn ∧
      (∀ c ∈ drawn, Event.display c ∈ run.trace)) ∧
    (∃ run : MainRun, main exampleEnv 0 none exampleMatrix = some run ∧
      run.outcome = Outcome.waiting ∧
      run.trace.filterMap Event.inferSample = [] ∧
      run.conf_matrix = exampleMatrix) :=
  main_init_gate exampleEnv exampleMatrix 7 (some 4) 2 (by decide)
    (fun i _ => by simp only [exampleEnv]; omega)

/-- Running the loop over one more sample is running it, then the body once. -/
theorem runLoop_concat {F : Type} [Sub F] [Div F] [LT F] [∀ a b : F, Decidable (a < b)]
    (env : Env F) (l : List Nat) (i : Nat) :
    ∀ st : EvalState,
      runLoop env st (l ++ [i]) = (runLoop env st l).bind fun s => loopBody env s i := by
  induction l with
  | nil =>
    intro st
    simp only [List.nil_append, runLoop, Option.some_bind]
    cases loopBody env st i <;> rfl
  | cons j l ih =>
    intro st
    simp only [List.cons_append, runLoop]
    cases loopBody env st j with
    | none => rfl
    | some s => exact ih s

/-- C15: if every dataset label is in `[0, 3)` then, whatever the inference
engine returns (for any score type and any comparison on it), at every
iteration both indices of `conf_matrix[real][pred]` are in `[0, 3)`: the
index conversion never fails, each iteration is defined on the state the
previous ones left, and the whole loop is defined. -/
theorem evaluation_indices_in_range {F : Type} [Sub F] [Div F] [LT F]
    [∀ a b : F, Decidable (a < b)] (env : Env F) (m0 : ConfMatrix)
    (hl : ∀ i, i < NUM_SAMPLES → 0 ≤ env.wine_labels i ∧ env.wine_labels i < 3) :
    (∀ i, i < NUM_SAMPLES → ∃ r c : Fin 3,
      toIndex (samplePair env i).1 = some r ∧ toIndex (samplePair env i).2 = some c ∧
      (samplePair env i).1 = env.wine_labels i ∧
      (0 ≤ (samplePair env i).2 ∧ (samplePair env i).2 < 3)) ∧
    (∀ k, k < NUM_SAMPLES → ∃ st st1 : EvalState, evaluate env k m0 = some st ∧
      loopBody env st k = some st1 ∧ evaluate env (k + 1) m0 = some st1) ∧
    (∃ st : EvalState, evaluate env NUM_SAMPLES m0 = some st) := by
  refine ⟨?_, ?_, ?_⟩
  · intro i hi
    obtain ⟨⟨a0, a3⟩, ⟨b0, b3⟩⟩ := samplePair_valid env i (hl i hi)
    obtain ⟨r, hr⟩ := exists_index _ a0 a3
    obtain ⟨c, hc⟩ := exists_index _ b0 b3
    exact ⟨r, c, by rw [← hr]; exact toIndex_coe r, by rw [← hc]; exact toIndex_coe c,
      rfl, b0, b3⟩
  · intro k hk
    obtain ⟨st, h1, _⟩ := evaluate_bounds env k m0 (le_of_lt hk) hl
    obtain ⟨st1, h2, _⟩ := evaluate_bounds env (k + 1) m0 hk hl
    refine ⟨st, st1, h1, ?_, h2⟩
    have hstep : evaluate env (k + 1) m0 =
        (evaluate env k m0).bind fun s => loopBody env s k := by
      simp only [evaluate, List.range_succ]
      exact runLoop_concat env (List.range k) k (initState m0)
    rw [h1, h2] at hstep
    exact hstep.symm
  · obtain ⟨st, h1, _⟩ := evaluate_bounds env NUM_SAMPLES m0 (le_refl _) hl
    exact ⟨st, h1⟩

/-- Witness for C15: the dataset labels of `exampleEnv`. -/
theorem evaluation_indices_in_range_witness :
    (∀ i, i < NUM_SAMPLES → ∃ r c : Fin 3,
      toIndex (samplePair exampleEnv i).1 = some r ∧
      toIndex (samplePair exampleEnv i).2 = some c ∧
      (samplePair exampleEnv i).1 = exampleEnv.wine_labels i ∧
      (0 ≤ (samplePair exampleEnv i).2 ∧ (samplePair exampleEnv i).2 < 3)) ∧
    (∀ k, k < NUM_SAMPLES → ∃ st st1 : EvalState, evaluate exampleEnv k exampleMatrix = some st ∧
      loopBody exampleEnv st k = some st1 ∧ evaluate exampleEnv (k + 1) exampleMatrix = some st1) ∧
    (∃ st : EvalState, evaluate exampleEnv NUM_SAMPLES exampleMatrix = some st) :=
  evaluation_indices_in_range exampleEnv exampleMatrix
    (fun i _ => by simp only [exampleEnv]; omega)

theorem drawn_wait (polls : Nat) :
    ((wait_for_button_press polls).filterMap Event.drawn).length = 3 * polls := by
  induction polls with
  | zero => rfl
  | succ n ih =>
    simp only [wait_for_button_press, List.filterMap_append, List.length_append, ih]
    simp [Event.drawn]
    omega

theorem drawn_samples {F : Type} [Sub F] [Div F] [LT F] [∀ a b : F, Decidable (a < b)]
    (env : Env F) (l : List Nat) :
    (l.flatMap (sampleEvents env)).filterMap Event.drawn = [] := by
  induction l with
  | nil => rfl
  | cons i l ih =>
    rw [List.flatMap_cons, List.filterMap_append, ih]
    unfold sampleEvents
    split_ifs <;> rfl

theorem drawn_summary (st : EvalState) :
    (summaryEvents st).filterMap Event.drawn = [] := by
  simp [summaryEvents, finRange_three, List.flatMap, Event.drawn]

theorem drawn_display (l : List DrawCmd) :
    (l.map Event.display).filterMap Event.drawn = l := by
  induction l with
  | nil => rfl
  | cons c l ih =>
    rw [List.map_cons, List.filterMap_cons]
    simp only [Event.drawn, ih]

/-- C16: the sequence of calls of the renderer is determined by the nine
counters and the layout constants: two matrices with the same entries (the
matrix at two renderings) give identical results, call by call; and in a run of
`main` the calls made to the display after the button prompt are exactly the
rendering of the final `conf_matrix`, whatever the dataset, the engine and the
number of polls were. -/
theorem render_deterministic {F : Type} [Sub F] [Div F] [LT F] [∀ a b : F, Decidable (a < b)]
    (env : Env F) (m0 : ConfMatrix) (polls : Nat) (m1 m2 : ConfMatrix)
    (hm : ∀ r c : Fin 3, m1 r c = m2 r c)
    (hl : ∀ i, i < NUM_SAMPLES → 0 ≤ env.wine_labels i ∧ env.wine_labels i < 3) :
    render layout0 m1 = render layout0 m2 ∧
    (∀ L : Layout, render L m1 = render L m2) ∧
    (∃ (run : MainRun) (drawn : List DrawCmd), main env 0 (some polls) m0 = some run ∧
      render layout0 run.conf_matrix = some drawn ∧
      (run.trace.filterMap Event.drawn).drop (3 * polls) = drawn) := by
  have e : m1 = m2 := by
    funext r c
    exact hm r c
  refine ⟨by rw [e], fun L => by rw [e], ?_⟩
  obtain ⟨st, hev, hb, _, _⟩ := evaluate_bounds env NUM_SAMPLES m0 (le_refl _) hl
  have hfit : fitsBuffer st.conf_matrix := by
    intro r c
    have := hb r c
    have h178 : ((NUM_SAMPLES : Nat) : Int) = 178 := rfl
    omega
  have hre := render_eq layout0 st.conf_matrix hfit
  refine ⟨_, _, main_success env m0 polls st _ hev hre, hre, ?_⟩
  simp only [List.filterMap_append, drawn_samples, drawn_summary, drawn_display]
  have hbr : bringUp.filterMap Event.drawn = [] := by decide
  rw [hbr]
  simp only [List.nil_append, List.append_nil]
  have hw := drawn_wait polls
  simp only [Event.drawn, List.filterMap_cons, List.filterMap_nil, List.append_nil,
    List.nil_append]
  rw [List.drop_append_of_le_length (le_of_eq hw.symm), ← hw, List.drop_length]
  rfl

/-- Witness for C16: `exampleMatrix` written by rows and by columns, and a
run on `exampleEnv` with one poll. -/
theorem render_deterministic_witness :
    render layout0 exampleMatrix =
      render layout0 (fun r c => ![![59, 2, 0], ![0, 67, 1], ![0, 2, 47]] c r) ∧
    (∀ L : Layout, render L exampleMatrix =
      render L (fun r c => ![![59, 2, 0], ![0, 67, 1], ![0, 2, 47]] c r)) ∧
    (∃ (run : MainRun) (drawn : List DrawCmd),
      main exampleEnv 0 (some 1) exampleMatrix = some run ∧
      render layout0 run.conf_matrix = some drawn ∧
      (run.trace.filterMap Event.drawn).drop (3 * 1) = drawn) :=
  render_deterministic exampleEnv exampleMatrix 1 exampleMatrix
    (fun r c => ![![59, 2, 0], ![0, 67, 1], ![0, 2, 47]] c r)
    (by decide) (fun i _ => by simp only [exampleEnv]; omega)

/-! ### Normalisation, algebraic properties -/

/-- Each position of the output of `normalize_input`, for any operations on
the score type. -/
theorem normalize_out {F : Type} [Sub F] [Div F] (x y0 mean std : Fin 13 → F) (i : Fin 13) :
    (normalize_input ⟨x, y0, mean, std⟩).out i = (x i - mean i) / std i := by
  obtain ⟨_, _, _, h4⟩ := normalize_foldl (List.finRange 13) (⟨x, y0, mean, std⟩ : NormMem F)
  unfold normalize_input
  rw [h4 i]
  simp [List.mem_finRange]

/-- C17: with `wine_means[i] = 0` and `wine_stds[i] = 1` at every position,
`normalize_input` returns its input: the output equals `x` for every feature
vector `x`, whatever `out` held before, and the all-zero vector comes back
all-zero. -/
theorem normalize_identity (x y0 : Fin 13 → ℚ) :
    (normalize_input ⟨x, y0, fun _ => 0, fun _ => 1⟩).out = x ∧
    (normalize_input ⟨fun _ => (0 : ℚ), y0, fun _ => 0, fun _ => 1⟩).out = fun _ => 0 := by
  constructor
  · funext i
    rw [normalize_out]
    simp
  · funext i
    rw [normalize_out]
    simp

/-- Among samples whose predicted label is in `[0, 3)`, those with true label
`r` split into the three cells of row `r`. -/
theorem countP_row (f g : Nat → Int) (r : Int) (l : List Nat)
    (hg : ∀ i ∈ l, 0 ≤ g i ∧ g i < 3) :
    l.countP (fun i => decide (f i = r ∧ g i = 0)) +
      l.countP (fun i => decide (f i = r ∧ g i = 1)) +
      l.countP (fun i => decide (f i = r ∧ g i = 2)) =
    l.countP (fun i => decide (f i = r)) := by
  simp only [Bool.decide_and]
  induction l with
  | nil => rfl
  | cons a l ih =>
    have ih2 := ih (fun i hi => hg i (List.mem_cons_of_mem _ hi))
    obtain ⟨g0, g3⟩ := hg a (List.mem_cons_self _ _)
    simp only [List.countP_cons]
    by_cases hf : f a = r
    · have hcases : g a = 0 ∨ g a = 1 ∨ g a = 2 := by omega
      rcases hcases with e | e | e <;> simp [hf, e] <;> omega
    · simp [hf]
      omega

/-- C19: after the evaluation loop over a dataset with labels in `[0, 3)`, for
every class `r` the sum of row `r` of the confusion matrix is the number of
samples whose true label is `r`, whatever the inference engine returned. -/
theorem row_sum_eq_label_count {F : Type} [Sub F] [Div F] [LT F]
    [∀ a b : F, Decidable (a < b)] (env : Env F) (m0 : ConfMatrix)
    (hl : ∀ i, i < NUM_SAMPLES → 0 ≤ env.wine_labels i ∧ env.wine_labels i < 3) :
    ∃ st : EvalState, evaluate env NUM_SAMPLES m0 = some st ∧
      ∀ r : Fin 3, st.conf_matrix r 0 + st.conf_matrix r 1 + st.conf_matrix r 2 =
        (((List.range NUM_SAMPLES).countP fun i => decide (env.wine_labels i = (r.val : Int))
          : Nat) : Int) := by
  obtain ⟨st, h1, h2, _⟩ := evaluate_counts env NUM_SAMPLES m0 (by decide) hl
  refine ⟨st, h1, ?_⟩
  intro r
  have hrow := countP_row (fun i => (samplePair env i).1) (fun i => (samplePair env i).2)
    (r.val : Int) (List.range NUM_SAMPLES)
    (fun i hi => (samplePair_valid env i (hl i (List.mem_range.1 hi))).2)
  rw [h2 r 0, h2 r 1, h2 r 2]
  have e : (fun i => decide ((samplePair env i).1 = (r.val : Int))) =
      (fun i => decide (env.wine_labels i = (r.val : Int))) := rfl
  rw [← e, ← hrow]
  push_cast
  rfl

/-- Witness for C19: the dataset of `exampleEnv`. -/
theorem row_sum_eq_label_count_witness :
    ∃ st : EvalState, evaluate exampleEnv NUM_SAMPLES exampleMatrix = some st ∧
      ∀ r : Fin 3, st.conf_matrix r 0 + st.conf_matrix r 1 + st.conf_matrix r 2 =
        (((List.range NUM_SAMPLES).countP fun i =>
          decide (exampleEnv.wine_labels i = (r.val : Int)) : Nat) : Int) :=
  row_sum_eq_label_count exampleEnv exampleMatrix
    (fun i _ => by simp only [exampleEnv]; omega)

/-- A value between 0 and 999 prints in at most three characters. -/
theorem toString_length_le_three (n : Int) (h0 : 0 ≤ n) (h : n ≤ 999) :
    (toString n).length ≤ 3 := by
  cases n with
  | ofNat k =>
    have hk : k < 10 ^ 3 := by
      have : (k : Int) ≤ 999 := h
      omega
    exact Nat.repr_length k 3 (by decide) hk
  | negSucc k =>
    rw [Int.negSucc_eq] at h0
    omega

/-- C20: for a dataset with labels in `[0, 3)` the evaluation loop is defined
(no increment is applied to `INT_MAX`) at every stage, and at render time every
counter `e` has `0 ≤ e ≤ 178`: its decimal string has at most 3 characters,
with the terminator it fits the 6 bytes of `buf`, so `sprintf` and the whole
drawing are defined; the counters and `correct` stay far below `INT_MAX`. -/
theorem counters_fit {F : Type} [Sub F] [Div F] [LT F]
    [∀ a b : F, Decidable (a < b)] (env : Env F) (m0 : ConfMatrix)
    (hl : ∀ i, i < NUM_SAMPLES → 0 ≤ env.wine_labels i ∧ env.wine_labels i < 3) :
    (∃ st : EvalState, evaluate env NUM_SAMPLES m0 = some st ∧
      (∀ r c : Fin 3, 0 ≤ st.conf_matrix r c ∧ st.conf_matrix r c ≤ 178 ∧
        (toString (st.conf_matrix r c)).length ≤ 3 ∧
        (toString (st.conf_matrix r c)).length + 1 ≤ 6 ∧
        sprintf_d 6 (st.conf_matrix r c) = some (toString (st.conf_matrix r c)) ∧
        st.conf_matrix r c < INT_MAX) ∧
      0 ≤ st.correct ∧ st.correct ≤ 178 ∧ st.correct < INT_MAX ∧
      (∃ tr : List DrawCmd, render layout0 st.conf_matrix = some tr)) ∧
    (∀ k : Nat, k ≤ NUM_SAMPLES → ∃ sk : EvalState, evaluate env k m0 = some sk ∧
      (∀ r c : Fin 3, 0 ≤ sk.conf_matrix r c ∧ sk.conf_matrix r c ≤ (k : Int) ∧
        sk.conf_matrix r c < INT_MAX) ∧
      0 ≤ sk.correct ∧ sk.correct ≤ (k : Int) ∧ sk.correct < INT_MAX) ∧
    (178 : Int) < INT_MAX := by
  refine ⟨?_, ?_, by decide⟩
  · obtain ⟨st, h1, h2, h3, h4⟩ := evaluate_bounds env NUM_SAMPLES m0 (le_refl _) hl
    have h178 : ((NUM_SAMPLES : Nat) : Int) = 178 := rfl
    rw [h178] at h2 h4
    have hfit : fitsBuffer st.conf_matrix := by
      intro r c
      have := h2 r c
      omega
    refine ⟨st, h1, ?_, h3, h4, by unfold INT_MAX; omega, _, render_eq layout0 _ hfit⟩
    intro r c
    obtain ⟨a0, a1⟩ := h2 r c
    have hlen := toString_length_le_three (st.conf_matrix r c) a0 (by omega)
    exact ⟨a0, a1, hlen, by omega, sprintf_d_fits _ (by omega) (by omega),
      by unfold INT_MAX; omega⟩
  · intro k hk
    have hk2 : k ≤ 178 := hk
    obtain ⟨sk, h1, h2, h3, h4⟩ := evaluate_bounds env k m0 hk hl
    refine ⟨sk, h1, ?_, h3, h4, by unfold INT_MAX; omega⟩
    intro r c
    obtain ⟨a0, a1⟩ := h2 r c
    exact ⟨a0, a1, by unfold INT_MAX; omega⟩

/-- Witness for C20: the dataset of `exampleEnv`. -/
theorem counters_fit_witness :
    (∃ st : EvalState, evaluate exampleEnv NUM_SAMPLES exampleMatrix = some st ∧
      (∀ r c : Fin 3, 0 ≤ st.conf_matrix r c ∧ st.conf_matrix r c ≤ 178 ∧
        (toString (st.conf_matrix r c)).length ≤ 3 ∧
        (toString (st.conf_matrix r c)).length + 1 ≤ 6 ∧
        sprintf_d 6 (st.conf_matrix r c) = some (toString (st.conf_matrix r c)) ∧
        st.conf_matrix r c < INT_MAX) ∧
      0 ≤ st.correct ∧ st.correct ≤ 178 ∧ st.correct < INT_MAX ∧
      (∃ tr : List DrawCmd, render layout0 st.conf_matrix = some tr)) ∧
    (∀ k : Nat, k ≤ NUM_SAMPLES → ∃ sk : EvalState, evaluate exampleEnv k exampleMatrix = some sk ∧
      (∀ r c : Fin 3, 0 ≤ sk.conf_matrix r c ∧ sk.conf_matrix r c ≤ (k : Int) ∧
        sk.conf_matrix r c < INT_MAX) ∧
      0 ≤ sk.correct ∧ sk.correct ≤ (k : Int) ∧ sk.correct < INT_MAX) ∧
    (178 : Int) < INT_MAX :=
  counters_fit exampleEnv exampleMatrix (fun i _ => by simp only [exampleEnv]; omega)

/-! ### The accuracy of the three-sample scenario -/

/-- Counterexample to C8 as stated: on the first three samples of `exampleEnv`
(true labels 0, 1, 2, predicted labels 0, 1, 1) the loop ends with
`correct = 2`, and the accuracy of line 146, a `float`, is
`11184811 / 16777216`, which is not `2/3`. -/
theorem accuracy_is_rounded :
    (List.range 3).map exampleEnv.wine_labels = [0, 1, 2] ∧
    (List.range 3).map (fun i => (samplePair exampleEnv i).2) = [0, 1, 1] ∧
    ∃ st : EvalState, evaluate exampleEnv 3 exampleMatrix = some st ∧ st.correct = 2 ∧
      accuracy st.correct 3 = some (11184811 / 16777216) ∧
      accuracy st.correct 3 ≠ some (2 / 3) := by
  refine ⟨by decide, by decide, ?_⟩
  obtain ⟨st, h1, _, h3⟩ := evaluate_counts exampleEnv 3 exampleMatrix (by decide)
    (fun i _ => by simp only [exampleEnv]; omega)
  have hc : st.correct = 2 := by rw [h3]; decide
  refine ⟨st, h1, hc, by rw [hc]; exact accuracy_two_three, ?_⟩
  rw [hc, accuracy_two_three]
  intro h
  have h2 := Option.some.inj h
  norm_num at h2

end TinyML
